import Mathlib

/-!
A select-driven chat relay (`annotated.c`): framing, fan-out and the event loop.

Shallow embedding of the relay server of `annotated.c`.

* A C string is a `List Char` that is read up to its first zero byte (or up to
  the end of the list, where the terminator sits): `cstr`.
* `clients` and `current` are maps from handles to entries; `maxfd`, `gid` and
  `serverfd` are C `int`s.
* Everything the process does to the outside world is recorded as a list of
  `Effect`s; `exit` and out-of-bounds writes end the run (`Status`).
-/

namespace MiniServ

/-! ## C strings -/

/-- The zero byte that terminates a C string. -/
def NUL : Char := Char.ofNat 0

/-- The content of a buffer read as a C string: the bytes before the first zero byte. -/
def cstr (p : List Char) : List Char := p.takeWhile (fun c => c != NUL)

/-- The length `strlen(p)` of the content. -/
def strlen (p : List Char) : Nat := (cstr p).length

/-- The call `strcat(dst, src)`: the content of `dst` followed by the content of `src`. -/
def strcat (dst src : List Char) : List Char := cstr dst ++ cstr src

/-! ## Effects and termination -/

/-- What the process does to its environment, in program order. -/
inductive Effect where
  | send (fd : Nat) (text : List Char)
  | stdout (text : List Char)
  | stderr (text : List Char)
  | close (fd : Int)
  deriving DecidableEq, Repr

/-- Whether the process is still running after a piece of code. `undefined` stands for
a write outside an array (`send_buffer`, `clients`, `current`) and for the overflow of an
`int` index or length. -/
inductive Status where
  | running
  | exited (code : Nat)
  | undefined
  deriving DecidableEq, Repr

/-- The function `err(msg)`: the writes to standard error, then `exit(1)`. -/
def err (msg : Option (List Char)) : List Effect × Status :=
  let first :=
    match msg with
    | some m => Effect.stderr (cstr m)
    | none => Effect.stderr "Fatal error".toList
  ([first, Effect.stderr "\n".toList], Status.exited 1)

/-! ## `str_join` and `extract_message` -/

/-- The largest value of a C `int`. -/
def INT_MAX : Nat := 2 ^ 31 - 1

/-- The outcome of `str_join`: the new buffer; `fatal` when `malloc` fails and `err(NULL)`
ends the process; `undefined` when the length of `buf` does not fit in the `int len`, so
that the size asked of `malloc` is not the size of what is copied. -/
inductive Joined where
  | ok (newbuf : List Char)
  | fatal
  | undefined
  deriving DecidableEq, Repr

/-- The function `str_join(buf, add)`. `mallocOk` is the outcome of the allocation. -/
def str_join (mallocOk : Bool) (buf : Option (List Char)) (add : List Char) : Joined :=
  -- len = strlen(buf), an int
  let fits :=
    match buf with
    | some b => decide (strlen b ≤ INT_MAX)
    | none => true
  if fits then
    if mallocOk then
      let newbuf : List Char := []
      let newbuf :=
        match buf with
        | some b => strcat newbuf b
        | none => newbuf
      Joined.ok (strcat newbuf add)
    else Joined.fatal
  else Joined.undefined

/-- The outcome of the scan of `extract_message`: the string ended without newline, a
newline was found at index `i`, or `i++` was reached with `i` at `INT_MAX`. -/
inductive Scan where
  | ended
  | found (i : Nat)
  | overflow
  deriving DecidableEq, Repr

/-- The `while ((*buf)[i])` scan of `extract_message`, started at index `i`, an `int`: the
index of the first newline met before the string ends. -/
def scan_newline : List Char → Nat → Scan
  | [], _ => Scan.ended
  | c :: cs, i =>
    if c = NUL then Scan.ended
    else if c = '\n' then Scan.found i
    else if i < INT_MAX then scan_newline cs (i + 1)
    else Scan.overflow

/-- The three results of `extract_message`: the returned `int`, `*buf` and `*msg`. -/
structure Extract where
  ret : Int
  buf : Option (List Char)
  msg : Option (List Char)
  deriving DecidableEq, Repr

/-- The function `extract_message(&buf, &msg)`. `callocOk` is the outcome of the
allocation of the new buffer, asked for only when a newline is found. The result is `none`
when the `int i` overflows: in `i++` during the scan, or in `(*msg)[i + 1]` when the
newline is at index `INT_MAX`. -/
def extract_message (callocOk : Bool) (buf : Option (List Char)) : Option Extract :=
  match buf with
  | none => some ⟨0, none, none⟩
  | some b =>
    match scan_newline b 0 with
    | Scan.ended => some ⟨0, some b, none⟩
    | Scan.overflow => none
    | Scan.found i =>
      if callocOk then
        -- strcpy(newbuf, *buf + i + 1); *msg = *buf; (*msg)[i + 1] = 0; *buf = newbuf
        if i < INT_MAX then some ⟨1, some (cstr (b.drop (i + 1))), some (b.take (i + 1))⟩
        else none
      else some ⟨-1, some b, none⟩

/-! ## The framer: the `recv` branch of `main` without the formatting and the sends -/

/-- The loop `while (extract_message(&clients[fd].msg, &message) == 1)`, keeping the
emitted messages, the final pending buffer and whether the loop ended normally
(`Status.undefined` when an `int` overflowed in `extract_message`). `alloc k` is the
outcome of the allocation in the `k`-th call. The first argument bounds the number of
turns; with the length of the buffer plus one, as in `feed`, it is never used up
(`drain_fuel`). -/
def drain (alloc : Nat → Bool) : Nat → Nat → Option (List Char) →
    List (List Char) × Option (List Char) × Status
  | 0, _, buf => ([], buf, Status.running)
  | fuel + 1, k, buf =>
    match extract_message (alloc k) buf with
    | none => ([], buf, Status.undefined)
    | some ⟨ret, buf1, message⟩ =>
      if ret = 1 then
        let rest := drain alloc fuel (k + 1) buf1
        (message.getD [] :: rest.1, rest.2.1, rest.2.2)
      else ([], buf1, Status.running)

/-- The content of `recv_buffer` after `recv` stored `data` and `recv_buffer[ret] = 0`. -/
def recv_buffer_of (data : List Char) : List Char := data ++ [NUL]

/-- One read of `data` for a connection whose pending buffer is `msg`: `str_join` then
the extraction loop. The result is the emitted messages, the new pending buffer and how
the read ended: normally, by `err(NULL)` (exit code 1) when `malloc` fails, or undefined
when an `int` overflowed. `alloc 0` is the allocation of `str_join`, `alloc (k + 1)` the
one of the `k`-th `extract_message`. -/
def feed (alloc : Nat → Bool) (msg : Option (List Char)) (data : List Char) :
    List (List Char) × Option (List Char) × Status :=
  match str_join (alloc 0) msg (recv_buffer_of data) with
  | Joined.fatal => ([], msg, Status.exited 1)
  | Joined.undefined => ([], msg, Status.undefined)
  | Joined.ok joined => drain alloc (strlen joined + 1) 1 (some joined)

/-- All allocations succeed. -/
def alloc_ok : Nat → Bool := fun _ => true

/-- Successive reads on one connection, all allocations succeeding: the emitted messages
of all the reads, in order, the final pending buffer, and how the reads ended; the reads
stop with the first one that does not end normally. -/
def feed_all : Option (List Char) → List (List Char) →
    List (List Char) × Option (List Char) × Status
  | msg, [] => ([], msg, Status.running)
  | msg, data :: more =>
    match feed alloc_ok msg data with
    | (lines, msg1, Status.running) =>
      let rest := feed_all msg1 more
      (lines ++ rest.1, rest.2.1, rest.2.2)
    | (lines, msg1, st) => (lines, msg1, st)

/-! ## The framing of the specification -/

/-- Splitting after every newline, delimiter kept: the complete lines of `input` and the
unterminated remainder, `cur` being the line under construction. -/
def frame : List Char → List Char → List (List Char) × List Char
  | [], cur => ([], cur)
  | c :: cs, cur =>
    if c = '\n' then
      let rest := frame cs []
      ((cur ++ [c]) :: rest.1, rest.2)
    else frame cs (cur ++ [c])

/-- The type `t_client`: the identity and the pending buffer of a connection (`NULL` is
`none`). -/
structure t_client where
  id : Int
  msg : Option (List Char)
  deriving DecidableEq, Repr

/-- The globals of the program. `clients` and `current` are indexed by handle. -/
structure Server where
  clients : Nat → t_client
  current : Nat → Bool
  maxfd : Int
  gid : Int
  serverfd : Int
  send_buffer : List Char

/-- The result of running a piece of code: the globals, what was done to the environment,
and whether the process still runs. -/
structure Result where
  state : Server
  effects : List Effect
  status : Status

/-- Number of entries of `clients` (and of bits of an `fd_set`). -/
def CLIENTS_SIZE : Int := 1024

/-- Number of bytes of `send_buffer`. -/
def SEND_BUFFER_SIZE : Nat := 4096

/-- A C `int` after an arithmetic operation: 32 bits, two's complement. This is what
`gid++` gives on the usual targets when the counter is at its maximum (the C standard
leaves that overflow undefined). -/
def wrap_int (x : Int) : Int := (x + 2 ^ 31) % 2 ^ 32 - 2 ^ 31

/-- The values of a C `int`. -/
def is_int (x : Int) : Prop := -2 ^ 31 ≤ x ∧ x < 2 ^ 31

instance (x : Int) : Decidable (is_int x) := by
  unfold is_int
  infer_instance

/-- The `%d` conversion: decimal digits, with a leading minus sign when negative. -/
def fmt_int : Int → List Char
  | Int.ofNat m => Nat.toDigits 10 m
  | Int.negSucc m => '-' :: Nat.toDigits 10 (m + 1)

/-- The text of `"server: client %d just arrived\n"`. -/
def arrival_text (id : Int) : List Char :=
  "server: client ".toList ++ fmt_int id ++ " just arrived\n".toList

/-- The text of `"server: client %d just left\n"`. -/
def left_text (id : Int) : List Char :=
  "server: client ".toList ++ fmt_int id ++ " just left\n".toList

/-- The text of `"client %d: %s"`. -/
def chat_text (id : Int) (message : List Char) : List Char :=
  "client ".toList ++ fmt_int id ++ ": ".toList ++ cstr message

/-- The call `sprintf(send_buffer, ...)` producing `text`: the new content of
`send_buffer`, or `none` when `text` and its terminating zero byte do not fit in the
array. -/
def sprintf (text : List Char) : Option (List Char) :=
  if text.length + 1 ≤ SEND_BUFFER_SIZE then some text else none

/-- The environment's answers during the handling of one event: `sendOk k fd` tells whether
the `send` to `fd` of the `k`-th `send_to_all` succeeds, `alloc k` whether the `k`-th
allocation does (`0` for `str_join`, `k + 1` for the `k`-th `extract_message`). -/
structure Oracle where
  sendOk : Nat → Nat → Bool
  alloc : Nat → Bool

/-- The environment in which every `send` and every allocation succeeds. -/
def Oracle.ok : Oracle := ⟨fun _ _ => true, alloc_ok⟩

/-! ## `send_to_all` -/

/-- The body of the `for` loop of `send_to_all`, over the handles still to visit. -/
def send_loop (s : Server) (sendOk : Nat → Bool) (except : Int) :
    List Nat → List Effect × Status
  | [] => ([], Status.running)
  | fd :: rest =>
    if s.current fd && (fd : Int) != s.serverfd && (fd : Int) != except then
      if sendOk fd then
        let r := send_loop s sendOk except rest
        (Effect.send fd (cstr s.send_buffer) :: r.1, r.2)
      else err none
    else send_loop s sendOk except rest

/-- The function `send_to_all(except)`: `for (fd = 0; fd <= maxfd; fd++)`. -/
def send_to_all (s : Server) (sendOk : Nat → Bool) (except : Int) : List Effect × Status :=
  send_loop s sendOk except (List.range (s.maxfd + 1).toNat)

/-- The handles within `0..maxfd` that are in `current` and are not the listening handle:
the connections a scan sees. -/
def connections (s : Server) : List Nat :=
  (List.range (s.maxfd + 1).toNat).filter (fun fd => s.current fd && (fd : Int) != s.serverfd)

/-- The connections other than `except`, in scan order. -/
def active_except (s : Server) (except : Int) : List Nat :=
  (connections s).filter (fun fd => (fd : Int) != except)

/-! ## The event loop -/

/-- The branch `fd == serverfd` of the loop body, `accept` having returned `clientfd`. -/
def accept_step (w : Oracle) (s : Server) (clientfd : Int) : Result :=
  if clientfd < 0 then ⟨s, [], Status.running⟩
  else if CLIENTS_SIZE ≤ clientfd then ⟨s, [], Status.undefined⟩
  else
    let c := clientfd.toNat
    -- FD_SET(clientfd, &current)
    let s1 := { s with current := Function.update s.current c true }
    -- clients[clientfd].id = gid++
    let s2 := { s1 with
      clients := Function.update s1.clients c ⟨s1.gid, (s1.clients c).msg⟩
      gid := wrap_int (s1.gid + 1) }
    -- clients[clientfd].msg = NULL
    let s3 := { s2 with clients := Function.update s2.clients c ⟨(s2.clients c).id, none⟩ }
    let s4 := if clientfd > s3.maxfd then { s3 with maxfd := clientfd } else s3
    match sprintf (arrival_text (s4.clients c).id) with
    | none => ⟨s4, [], Status.undefined⟩
    | some text =>
      let s5 := { s4 with send_buffer := text }
      let r := send_to_all s5 (w.sendOk 0) clientfd
      ⟨s5, Effect.stdout (cstr s5.send_buffer) :: r.1, r.2⟩

/-- The loop `while (extract_message(&clients[fd].msg, &message) == 1)` of the `recv`
branch with its body; `k` counts the iterations done. The first argument bounds the
number of turns; with the length of the buffer plus one, as in `recv_step`, it is never
used up (`message_loop_fuel`). -/
def message_loop (w : Oracle) (fd : Nat) : Nat → Nat → Server → Result
  | 0, _, s => ⟨s, [], Status.running⟩
  | fuel + 1, k, s =>
    match extract_message (w.alloc (k + 1)) (s.clients fd).msg with
    | none => ⟨s, [], Status.undefined⟩
    | some ⟨ret, buf1, message⟩ =>
      let s1 := { s with clients := Function.update s.clients fd ⟨(s.clients fd).id, buf1⟩ }
      if ret = 1 then
        match sprintf (chat_text (s1.clients fd).id (message.getD [])) with
        | none => ⟨s1, [], Status.undefined⟩
        | some text =>
          let s2 := { s1 with send_buffer := text }
          let r := send_to_all s2 (w.sendOk k) fd
          match r.2 with
          | Status.running =>
            let r2 := message_loop w fd fuel (k + 1) s2
            ⟨r2.state, Effect.stdout (cstr s2.send_buffer) :: r.1 ++ r2.effects, r2.status⟩
          | st => ⟨s2, Effect.stdout (cstr s2.send_buffer) :: r.1, st⟩
      else ⟨s1, [], Status.running⟩

/-- The `else` branch of the loop body for a connection `fd`, `recv` having returned `ret`
and, when `ret > 0`, stored the first `ret` bytes of `data` in `recv_buffer`. -/
def recv_step (w : Oracle) (s : Server) (fd : Nat) (ret : Int) (data : List Char) : Result :=
  if ret > 0 then
    match str_join (w.alloc 0) (s.clients fd).msg (recv_buffer_of (data.take ret.toNat)) with
    | Joined.fatal => ⟨s, (err none).1, (err none).2⟩
    | Joined.undefined => ⟨s, [], Status.undefined⟩
    | Joined.ok joined =>
      let s1 := { s with
        clients := Function.update s.clients fd ⟨(s.clients fd).id, some joined⟩ }
      message_loop w fd (strlen joined + 1) 0 s1
  else
    match sprintf (left_text (s.clients fd).id) with
    | none => ⟨s, [], Status.undefined⟩
    | some text =>
      let s1 := { s with send_buffer := text }
      let r := send_to_all s1 (w.sendOk 0) fd
      match r.2 with
      | Status.running =>
        -- free(clients[fd].msg); clients[fd].msg = NULL; FD_CLR(fd, &current); close(fd)
        let s2 := { s1 with
          clients := Function.update s1.clients fd ⟨(s1.clients fd).id, none⟩
          current := Function.update s1.current fd false }
        ⟨s2, Effect.stdout (cstr s1.send_buffer) :: r.1 ++ [Effect.close fd], Status.running⟩
      | st => ⟨s1, Effect.stdout (cstr s1.send_buffer) :: r.1, st⟩

/-- A handle found readable by the scan, with the answer of the system call made for it:
`accept` on the listening handle, `recv` on a connection. -/
inductive Event where
  | accept (clientfd : Int)
  | recv (fd : Nat) (ret : Int) (data : List Char)

/-- The handle of the connection an event is about: the accepted one, or the one read. -/
def Event.source : Event → Int
  | Event.accept clientfd => clientfd
  | Event.recv fd _ _ => fd

/-- The body of the scan for one readable handle. -/
def step (w : Oracle) (s : Server) : Event → Result
  | Event.accept clientfd => accept_step w s clientfd
  | Event.recv fd ret data => recv_step w s fd ret data

/-- The handling of a sequence of readable handles, until the process stops. -/
def run (s : Server) : List (Oracle × Event) → Result
  | [] => ⟨s, [], Status.running⟩
  | (w, e) :: rest =>
    let r := step w s e
    match r.status with
    | Status.running =>
      let r2 := run r.state rest
      ⟨r2.state, r.effects ++ r2.effects, r2.status⟩
    | st => ⟨r.state, r.effects, st⟩

/-- The globals when the loop is entered, `socket` having returned `serverfd`. -/
def init (serverfd : Int) : Server where
  clients := fun _ => ⟨0, none⟩
  current := fun fd => (fd : Int) == serverfd
  maxfd := serverfd
  gid := 0
  serverfd := serverfd
  send_buffer := []

/-- The texts sent to `fd`, in order. -/
def received (fd : Nat) : List Effect → List (List Char)
  | [] => []
  | Effect.send dest text :: rest =>
    if dest = fd then text :: received fd rest else received fd rest
  | _ :: rest => received fd rest

/-- The identity given by an event, when it is an admission. -/
def admitted (w : Oracle) (s : Server) : Event → Option Int
  | Event.accept clientfd =>
    if 0 ≤ clientfd ∧ clientfd < CLIENTS_SIZE then
      some ((accept_step w s clientfd).state.clients clientfd.toNat).id
    else none
  | Event.recv _ _ _ => none

/-- The identities given by the admissions of a run, in admission order. -/
def admissions (s : Server) : List (Oracle × Event) → List Int
  | [] => []
  | (w, e) :: rest =>
    let r := step w s e
    let more :=
      match r.status with
      | Status.running => admissions r.state rest
      | _ => []
    match admitted w s e with
    | some id => id :: more
    | none => more

/-- The high-water mark is above every handle of the active set: no scan `0..maxfd`
misses an active handle. -/
def high_water (s : Server) : Prop := ∀ x, s.current x = true → (x : Int) ≤ s.maxfd

/-! ## States used as examples -/

/-- The listening handle is 3 and one client, of handle 4, has been admitted. -/
def one_client : Server := (run (init 3) [(Oracle.ok, Event.accept 4)]).state

/-- The listening handle is 3 and two clients, of handles 4 and 5, have been admitted. -/
def two_clients : Server :=
  (run (init 3) [(Oracle.ok, Event.accept 4), (Oracle.ok, Event.accept 5)]).state

/-- The listening handle is 3 and three clients, of handles 4, 5 and 6, have been
admitted. -/
def three_clients : Server :=
  (run (init 3)
    [(Oracle.ok, Event.accept 4), (Oracle.ok, Event.accept 5), (Oracle.ok, Event.accept 6)]).state

/-- A client connects and gets the handle 4, then disconnects, `n` times over. -/
def churn (n : Nat) : List (Oracle × Event) :=
  (List.replicate n [(Oracle.ok, Event.accept 4), (Oracle.ok, Event.recv 4 0 [])]).flatten

/-! ## Standard error -/

/-- What a sequence of effects leaves on standard error: its writes, one after another. -/
def stderr_output : List Effect → List Char
  | [] => []
  | Effect.stderr text :: rest => text ++ stderr_output rest
  | _ :: rest => stderr_output rest

/-! ## The start of `main` -/

/-- The system calls `main` makes before the loop. -/
inductive Call where
  | socket
  | bind
  | listen
  deriving DecidableEq, Repr

/-- The outcome of the start of `main`: the system calls made, the effects, whether the
process still runs, and the globals. -/
structure Startup where
  calls : List Call
  effects : List Effect
  status : Status
  state : Server

/-- The globals when the process starts: all zero. -/
def boot : Server where
  clients := fun _ => ⟨0, none⟩
  current := fun _ => false
  maxfd := 0
  gid := 0
  serverfd := 0
  send_buffer := []

/-- The function `main` up to the loop, for `ac` arguments of which `av[1]` is `port`,
`socket`, `bind` and `listen` answering `socket_ret`, `bind_ret` and `listen_ret`. -/
def main_start (ac : Int) (port : List Char) (socket_ret bind_ret listen_ret : Int) :
    Startup :=
  if ac ≠ 2 then
    ⟨[], (err (some "Wrong number of arguments".toList)).1,
      (err (some "Wrong number of arguments".toList)).2, boot⟩
  else if socket_ret = -1 then
    ⟨[Call.socket], (err none).1, (err none).2, { boot with serverfd := socket_ret }⟩
  else if bind_ret = -1 then
    ⟨[Call.socket, Call.bind], (err none).1, (err none).2, init socket_ret⟩
  else if listen_ret = -1 then
    ⟨[Call.socket, Call.bind, Call.listen], (err none).1, (err none).2, init socket_ret⟩
  else
    ⟨[Call.socket, Call.bind, Call.listen],
      [Effect.stdout ("Server listening on port ".toList ++ cstr port ++ "...\n".toList)],
      Status.running, init socket_ret⟩

/-! ## One wakeup of the loop -/

/-- What the system answers during one wakeup: the handles `select` reports readable, and
for each of them the answer of `accept` or `recv` and the outcomes of the sends and
allocations made while it is handled. -/
structure Wakeup where
  read_set : Nat → Bool
  oracle : Nat → Oracle
  clientfd : Int
  ret : Nat → Int
  data : Nat → List Char

/-- The event of a readable handle: an `accept` on the listening handle, a `recv` on any
other. -/
def ready_event (k : Wakeup) (s : Server) (fd : Nat) : Event :=
  if (fd : Int) = s.serverfd then Event.accept k.clientfd
  else Event.recv fd (k.ret fd) (k.data fd)

/-- The scan `for (fd = ...; fd <= maxfd; fd++)` of one wakeup, from `fd` on. The first
argument bounds the number of turns; `scan_turns` is enough (`scan_fuel`). -/
def scan (k : Wakeup) : Nat → Nat → Server → Result
  | 0, _, s => ⟨s, [], Status.running⟩
  | fuel + 1, fd, s =>
    if (fd : Int) ≤ s.maxfd then
      if k.read_set fd then
        let r := step (k.oracle fd) s (ready_event k s fd)
        match r.status with
        | Status.running =>
          let r2 := scan k fuel (fd + 1) r.state
          ⟨r2.state, r.effects ++ r2.effects, r2.status⟩
        | st => ⟨r.state, r.effects, st⟩
      else scan k fuel (fd + 1) s
    else ⟨s, [], Status.running⟩

/-- A bound on the number of turns of a scan: `maxfd` stays below the larger of its value
at the wakeup and 1023. -/
def scan_turns (s : Server) : Nat := (max s.maxfd (CLIENTS_SIZE - 1)).toNat + 1

/-- One wakeup: the scan from handle 0. -/
def wakeup (k : Wakeup) (s : Server) : Result := scan k (scan_turns s) 0 s

/-! ## `cleanup` and the interrupt handler -/

/-- The body of the `for` loop of `cleanup`, over the handles still to visit: the handles
whose pending buffer is freed, and the closes. -/
def cleanup_loop (s : Server) : List Nat → List Nat × List Effect
  | [] => ([], [])
  | fd :: rest =>
    if s.current fd && (fd : Int) != s.serverfd then
      let r := cleanup_loop s rest
      (if (s.clients fd).msg.isSome then fd :: r.1 else r.1, Effect.close fd :: r.2)
    else cleanup_loop s rest

/-- The function `cleanup()`: the handles whose pending buffer is freed, and the closes. -/
def cleanup (s : Server) : List Nat × List Effect :=
  let r := cleanup_loop s (List.range (s.maxfd + 1).toNat)
  (r.1, r.2 ++ if s.serverfd > 0 then [Effect.close s.serverfd] else [])

/-- The function `sigint_handler(sig)`: `cleanup()` then `exit(0)`. -/
def sigint_handler (s : Server) : List Nat × List Effect × Status :=
  ((cleanup s).1, (cleanup s).2, Status.exited 0)

/-- The listening handle is 0 (standard input was closed when the server started) and one
client, of handle 3, has been admitted. -/
def listening_on_zero : Server := (run (init 0) [(Oracle.ok, Event.accept 3)]).state

/-- The listening handle 3 is readable but `accept` fails; the client of handle 4 has sent
`"hi\n"`. -/
def failed_accept_wakeup : Wakeup :=
  ⟨fun fd => fd == 3 || fd == 4, fun _ => Oracle.ok, -1, fun _ => 3, fun _ => "hi\n".toList⟩

/-- The environment in which `malloc` succeeds in `str_join` and every `calloc` of
`extract_message` fails; the sends succeed. -/
def calloc_fails : Oracle := ⟨fun _ _ => true, fun k => k == 0⟩

/-- The environment in which `malloc` fails in `str_join`; the sends succeed. -/
def malloc_fails : Oracle := ⟨fun _ _ => true, fun _ => false⟩

/-- The globals in the middle of the admission of a third client, of handle 6, into
`two_clients`: `FD_SET(clientfd, &current)` is done, `maxfd` is not raised yet. -/
def mid_admission : Server :=
  { two_clients with current := Function.update two_clients.current 6 true }

end MiniServ

/-! ## Lemmas and theorems -/

namespace MiniServ

theorem newline_ne_NUL : ('\n' : Char) ≠ NUL := by decide

theorem cstr_nil : cstr [] = [] := rfl

theorem cstr_cons (c : Char) (cs : List Char) :
    cstr (c :: cs) = if c = NUL then [] else c :: cstr cs := by
  by_cases h : c = NUL <;> simp [cstr, List.takeWhile_cons, h]

theorem cstr_append_of_not_mem (l r : List Char) (h : NUL ∉ l) :
    cstr (l ++ r) = l ++ cstr r := by
  induction l with
  | nil => rfl
  | cons c cs ih =>
    have hc : c ≠ NUL := fun e => h (by simp [e])
    have hcs : NUL ∉ cs := fun e => h (List.mem_cons_of_mem _ e)
    simp [cstr_cons, hc, ih hcs]

theorem cstr_of_not_mem (l : List Char) (h : NUL ∉ l) : cstr l = l := by
  have := cstr_append_of_not_mem l [] h
  simpa [cstr_nil] using this

theorem NUL_not_mem_cstr (p : List Char) : NUL ∉ cstr p := by
  induction p with
  | nil => simp [cstr_nil]
  | cons c cs ih =>
    by_cases h : c = NUL
    · simp [cstr_cons, h]
    · simp [cstr_cons, h, ih, Ne.symm h]

theorem cstr_cstr (p : List Char) : cstr (cstr p) = cstr p :=
  cstr_of_not_mem _ (NUL_not_mem_cstr p)

/-- A string whose content has a newline splits at its first newline. -/
theorem exists_first_newline (b : List Char) (h : '\n' ∈ cstr b) :
    ∃ l rest, b = l ++ '\n' :: rest ∧ '\n' ∉ l ∧ NUL ∉ l := by
  induction b with
  | nil => simp [cstr_nil] at h
  | cons c cs ih =>
    by_cases h0 : c = NUL
    · simp [cstr_cons, h0] at h
    · by_cases h1 : c = '\n'
      · exact ⟨[], cs, by simp [h1], by simp, by simp⟩
      · have : '\n' ∈ cstr cs := by
          simp [cstr_cons, h0] at h
          rcases h with h | h
          · exact absurd h.symm h1
          · exact h
        obtain ⟨l, rest, e, hl, hn⟩ := ih this
        refine ⟨c :: l, rest, by simp [e], ?_, ?_⟩
        · simp [hl, Ne.symm h1]
        · simp [hn, Ne.symm h0]

theorem strlen_cons (c : Char) (cs : List Char) (h : c ≠ NUL) :
    strlen (c :: cs) = strlen cs + 1 := by
  simp [strlen, cstr_cons, h]

theorem strlen_of_not_mem (l : List Char) (h : NUL ∉ l) : strlen l = l.length := by
  simp [strlen, cstr_of_not_mem l h]

theorem scan_newline_append (l rest : List Char) (i : Nat)
    (hl : '\n' ∉ l) (hn : NUL ∉ l) (hb : i + l.length ≤ INT_MAX) :
    scan_newline (l ++ '\n' :: rest) i = Scan.found (i + l.length) := by
  induction l generalizing i with
  | nil => simp [scan_newline, newline_ne_NUL]
  | cons c cs ih =>
    have hc0 : c ≠ NUL := fun e => hn (by simp [e])
    have hc1 : c ≠ '\n' := fun e => hl (by simp [e])
    have hl1 : '\n' ∉ cs := fun e => hl (List.mem_cons_of_mem _ e)
    have hn1 : NUL ∉ cs := fun e => hn (List.mem_cons_of_mem _ e)
    simp only [List.length_cons] at hb
    have hi : i < INT_MAX := by omega
    have e : i + 1 + cs.length = i + (cs.length + 1) := by omega
    rw [List.cons_append, scan_newline, if_neg hc0, if_neg hc1, if_pos hi,
      ih (i + 1) hl1 hn1 (by omega), List.length_cons, e]

theorem scan_newline_none (b : List Char) (i : Nat) (h : '\n' ∉ cstr b)
    (hb : i + strlen b ≤ INT_MAX) :
    scan_newline b i = Scan.ended := by
  induction b generalizing i with
  | nil => rfl
  | cons c cs ih =>
    by_cases h0 : c = NUL
    · simp [scan_newline, h0]
    · have hc1 : c ≠ '\n' := fun e =>
        h (by rw [cstr_cons, if_neg h0, e]; exact List.mem_cons_self _ _)
      have : '\n' ∉ cstr cs := fun e => h (by simp [cstr_cons, h0, e])
      rw [strlen_cons c cs h0] at hb
      have hi : i < INT_MAX := by omega
      rw [scan_newline, if_neg h0, if_neg hc1, if_pos hi]
      exact ih (i + 1) this (by omega)

/-- The scan stops on `i++` when more than `INT_MAX` bytes precede every newline and
zero byte. -/
theorem scan_newline_overflow (l rest : List Char) (i : Nat)
    (hl : '\n' ∉ l) (hn : NUL ∉ l) (hi : i ≤ INT_MAX) (hb : INT_MAX < i + l.length) :
    scan_newline (l ++ rest) i = Scan.overflow := by
  induction l generalizing i with
  | nil =>
    simp only [List.length_nil] at hb
    omega
  | cons c cs ih =>
    have hc0 : c ≠ NUL := fun e => hn (by simp [e])
    have hc1 : c ≠ '\n' := fun e => hl (by simp [e])
    have hl1 : '\n' ∉ cs := fun e => hl (List.mem_cons_of_mem _ e)
    have hn1 : NUL ∉ cs := fun e => hn (List.mem_cons_of_mem _ e)
    simp only [List.length_cons] at hb
    by_cases h : i < INT_MAX
    · rw [List.cons_append, scan_newline, if_neg hc0, if_neg hc1, if_pos h]
      exact ih (i + 1) hl1 hn1 (by omega) (by omega)
    · rw [List.cons_append, scan_newline, if_neg hc0, if_neg hc1, if_neg h]

theorem extract_message_append (l rest : List Char) (hl : '\n' ∉ l) (hn : NUL ∉ l)
    (hb : l.length < INT_MAX) :
    extract_message true (some (l ++ '\n' :: rest))
      = some ⟨1, some (cstr rest), some (l ++ ['\n'])⟩ := by
  have hs := scan_newline_append l rest 0 hl hn (by omega)
  simp only [Nat.zero_add] at hs
  simp [extract_message, hs, hb, List.take_append_eq_append_take]

/-- A newline at index `INT_MAX`: the scan reaches it, and `(*msg)[i + 1]` overflows. -/
theorem extract_message_index_overflow (l rest : List Char) (hl : '\n' ∉ l) (hn : NUL ∉ l)
    (hb : l.length = INT_MAX) :
    extract_message true (some (l ++ '\n' :: rest)) = none := by
  have hs := scan_newline_append l rest 0 hl hn (by omega)
  simp only [Nat.zero_add] at hs
  simp [extract_message, hs, hb]

theorem extract_message_no_newline (ok : Bool) (b : List Char) (h : '\n' ∉ cstr b)
    (hb : strlen b ≤ INT_MAX) :
    extract_message ok (some b) = some ⟨0, some b, none⟩ := by
  simp [extract_message, scan_newline_none b 0 h (by omega)]

/-! ## The framing of the specification: lemmas -/

theorem frame_no_newline (l cur : List Char) (h : '\n' ∉ l) :
    frame l cur = ([], cur ++ l) := by
  induction l generalizing cur with
  | nil => simp [frame]
  | cons c cs ih =>
    have hc : c ≠ '\n' := fun e => h (by simp [e])
    have hcs : '\n' ∉ cs := fun e => h (List.mem_cons_of_mem _ e)
    simp [frame, hc, ih _ hcs]

theorem frame_append (x y cur : List Char) :
    frame (x ++ y) cur
      = ((frame x cur).1 ++ (frame y (frame x cur).2).1, (frame y (frame x cur).2).2) := by
  induction x generalizing cur with
  | nil => simp [frame]
  | cons c cs ih =>
    by_cases hc : c = '\n'
    · simp [frame, hc, ih]
    · simp [frame, hc, ih]

theorem frame_newline (l rest cur : List Char) (h : '\n' ∉ l) :
    frame (l ++ '\n' :: rest) cur
      = ((cur ++ l ++ ['\n']) :: (frame rest []).1, (frame rest []).2) := by
  rw [frame_append, frame_no_newline l cur h]
  simp [frame]

theorem frame_shift (x cur : List Char) (h : '\n' ∉ cur) :
    frame (cur ++ x) [] = frame x cur := by
  rw [frame_append, frame_no_newline cur [] h]
  simp

theorem frame_rest_no_newline (x cur : List Char) (h : '\n' ∉ cur) :
    '\n' ∉ (frame x cur).2 := by
  induction x generalizing cur with
  | nil => simpa [frame] using h
  | cons c cs ih =>
    by_cases hc : c = '\n'
    · simpa [frame, hc] using ih [] (by simp)
    · simp only [frame, hc, if_false]
      exact ih _ (by simp [h, Ne.symm hc])

theorem frame_rest_no_NUL (x cur : List Char) (hx : NUL ∉ x) (h : NUL ∉ cur) :
    NUL ∉ (frame x cur).2 := by
  induction x generalizing cur with
  | nil => simpa [frame] using h
  | cons c cs ih =>
    have hc0 : c ≠ NUL := fun e => hx (by simp [e])
    have hcs : NUL ∉ cs := fun e => hx (List.mem_cons_of_mem _ e)
    by_cases hc : c = '\n'
    · simpa [frame, hc] using ih [] hcs (by simp)
    · simp only [frame, hc, if_false]
      exact ih _ hcs (by simp [h, Ne.symm hc0])

theorem frame_conserve (x cur : List Char) :
    (frame x cur).1.flatten ++ (frame x cur).2 = cur ++ x := by
  induction x generalizing cur with
  | nil => simp [frame]
  | cons c cs ih =>
    by_cases hc : c = '\n'
    · have := ih []
      simp only [frame, hc, if_true, List.flatten_cons, List.append_assoc]
      simp only [List.nil_append] at this
      rw [this]
      simp
    · have := ih (cur ++ [c])
      simp only [frame, hc, if_false]
      rw [this]
      simp

theorem frame_rest_length (x cur : List Char) :
    (frame x cur).2.length ≤ (cur ++ x).length := by
  rw [← frame_conserve x cur, List.length_append]
  omega

/-! ## The extraction loop computes the framing -/

theorem drain_eq_frame (fuel k : Nat) (b : List Char) (hn : NUL ∉ b)
    (hf : b.length < fuel) (hb : b.length ≤ INT_MAX) :
    drain alloc_ok fuel k (some b)
      = ((frame b []).1, some (frame b []).2, Status.running) := by
  induction fuel generalizing k b with
  | zero => omega
  | succ fuel ih =>
    by_cases h : '\n' ∈ cstr b
    · obtain ⟨l, rest, e, hl, hln⟩ := exists_first_newline b h
      subst e
      have hrest : NUL ∉ rest := fun m => hn (by simp [m])
      simp only [List.length_append, List.length_cons] at hf hb
      have hlen : rest.length < fuel := by omega
      simp only [drain, alloc_ok, extract_message_append l rest hl hln (by omega)]
      rw [cstr_of_not_mem rest hrest, ih (k + 1) rest hrest hlen (by omega),
        frame_newline l rest [] hl]
      simp
    · have hs : strlen b ≤ INT_MAX := by rw [strlen_of_not_mem b hn]; exact hb
      simp only [drain, extract_message_no_newline _ b h hs]
      rw [cstr_of_not_mem b hn] at h
      simp [frame_no_newline b [] h]

theorem str_join_eq (p : Option (List Char)) (data : List Char)
    (hp : NUL ∉ p.getD []) (hd : NUL ∉ data) (hb : (p.getD []).length ≤ INT_MAX) :
    str_join true p (recv_buffer_of data) = Joined.ok (p.getD [] ++ data) := by
  have h1 : cstr (data ++ [NUL]) = data := by
    rw [cstr_append_of_not_mem data [NUL] hd]
    simp [cstr_cons, cstr_nil]
  cases p with
  | none => simp [str_join, strcat, recv_buffer_of, h1, cstr_nil]
  | some b =>
    simp only [Option.getD_some] at hp hb
    have hs : strlen b ≤ INT_MAX := by rw [strlen_of_not_mem b hp]; exact hb
    simp [str_join, strcat, recv_buffer_of, h1, cstr_nil, cstr_of_not_mem b hp, hs]

theorem feed_eq_frame (p : Option (List Char)) (data : List Char)
    (hp : NUL ∉ p.getD []) (hd : NUL ∉ data)
    (hb : (p.getD [] ++ data).length ≤ INT_MAX) :
    feed alloc_ok p data
      = ((frame (p.getD [] ++ data) []).1, some (frame (p.getD [] ++ data) []).2,
         Status.running) := by
  have hj : NUL ∉ p.getD [] ++ data := by simp [hp, hd]
  have hbp : (p.getD []).length ≤ INT_MAX := by
    simp only [List.length_append] at hb
    omega
  have e : str_join (alloc_ok 0) p (recv_buffer_of data) = Joined.ok (p.getD [] ++ data) :=
    str_join_eq p data hp hd hbp
  simp only [feed, e]
  rw [drain_eq_frame _ 1 _ hj (by simp [strlen, cstr_of_not_mem _ hj]) hb]

theorem feed_all_eq_frame (chunks : List (List Char)) (p : Option (List Char))
    (hp : NUL ∉ p.getD []) (hl : '\n' ∉ p.getD [])
    (h : ∀ c ∈ chunks, NUL ∉ c)
    (hb : (p.getD [] ++ chunks.flatten).length ≤ INT_MAX) :
    feed_all p chunks
      = ((frame chunks.flatten (p.getD [])).1,
         (if chunks = [] then p else some (frame chunks.flatten (p.getD [])).2),
         Status.running) := by
  induction chunks generalizing p with
  | nil => simp [feed_all, frame]
  | cons data more ih =>
    have hd : NUL ∉ data := h data (by simp)
    have hm : ∀ c ∈ more, NUL ∉ c := fun c hc => h c (List.mem_cons_of_mem _ hc)
    have hr0 : NUL ∉ (frame data (p.getD [])).2 := frame_rest_no_NUL _ _ hd hp
    have hr1 : '\n' ∉ (frame data (p.getD [])).2 := frame_rest_no_newline _ _ hl
    have hr2 := frame_rest_length data (p.getD [])
    simp only [List.flatten_cons, List.length_append] at hb hr2
    have hb1 : (p.getD [] ++ data).length ≤ INT_MAX := by
      simp only [List.length_append]
      omega
    have hb2 : ((some (frame data (p.getD [])).2).getD [] ++ more.flatten).length
        ≤ INT_MAX := by
      simp only [Option.getD_some, List.length_append]
      omega
    simp only [feed_all, feed_eq_frame p data hp hd hb1, frame_shift data _ hl]
    rw [ih (some (frame data (p.getD [])).2) (by simpa using hr0) (by simpa using hr1) hm hb2]
    simp only [List.flatten_cons, frame_append, Option.getD_some]
    by_cases hmore : more = []
    · subst hmore
      simp [frame]
    · simp [hmore]

/-! ## Claims on the framer -/

/-- A buffer of `n` letters followed by a newline, `n` being `INT_MAX`: its content has a
newline, and `extract_message` overflows its `int i` in `(*msg)[i + 1]`. -/
theorem extract_message_long_line (n : Nat) (hn : n = INT_MAX) :
    '\n' ∈ cstr (List.replicate n 'a' ++ ['\n']) ∧
    ((cstr (List.replicate n 'a' ++ ['\n'])).takeWhile (fun c => c != '\n')).length = n ∧
    extract_message true (some (List.replicate n 'a' ++ ['\n'])) = none := by
  have h0 : NUL ∉ List.replicate n 'a' := by
    simp only [List.mem_replicate, not_and]
    intro _
    decide
  have h1 : '\n' ∉ List.replicate n 'a' := by
    simp only [List.mem_replicate, not_and]
    intro _
    decide
  have hc : cstr (List.replicate n 'a' ++ ['\n']) = List.replicate n 'a' ++ ['\n'] := by
    rw [cstr_append_of_not_mem _ _ h0]
    simp [cstr_cons, cstr_nil, newline_ne_NUL]
  refine ⟨by rw [hc]; simp, ?_, ?_⟩
  · rw [hc, List.takeWhile_append_of_pos]
    · simp
    · intro c hc
      have : c ≠ '\n' := fun e => h1 (e ▸ hc)
      simpa using this
  · exact extract_message_index_overflow _ [] h1 h0 (by simpa using hn)

/-- C2 (as stated, refuted): the buffer made of 2147483647 letters followed by a newline
is non-null and contains a newline, at index `INT_MAX`. The scan of `extract_message`
reaches it with `i` at `INT_MAX`, and `(*msg)[i + 1]` overflows the `int`: the call has no
defined result. -/
theorem extract_message_index_overflows :
    '\n' ∈ cstr (List.replicate 2147483647 'a' ++ ['\n']) ∧
    ((cstr (List.replicate 2147483647 'a' ++ ['\n'])).takeWhile
      (fun c => c != '\n')).length = 2147483647 ∧
    extract_message true (some (List.replicate 2147483647 'a' ++ ['\n'])) = none :=
  extract_message_long_line 2147483647 (by decide)

/-- C2 (amended): when the content of the buffer has a newline, the first one at an index
below `INT_MAX` (2^31 - 1), and the allocation succeeds, `extract_message` returns 1,
`*msg` is the content up to and including the first newline, `*buf` is what follows it;
`*msg` then the new `*buf` is the old content, and the only newline of `*msg` is its last
byte. -/
theorem extract_message_first_line (b : List Char) (h : '\n' ∈ cstr b)
    (hi : ((cstr b).takeWhile (fun c => c != '\n')).length < INT_MAX) :
    ∃ line rest,
      extract_message true (some b) = some ⟨1, some rest, some line⟩ ∧
      line = (cstr b).takeWhile (fun c => c != '\n') ++ ['\n'] ∧
      rest = ((cstr b).dropWhile (fun c => c != '\n')).drop 1 ∧
      line ++ rest = cstr b ∧
      line.count '\n' = 1 ∧
      line.getLast? = some '\n' := by
  obtain ⟨l, rest, e, hl, hn⟩ := exists_first_newline b h
  subst e
  have hc : cstr (l ++ '\n' :: rest) = l ++ '\n' :: cstr rest := by
    rw [cstr_append_of_not_mem l _ hn]
    simp [cstr_cons, newline_ne_NUL]
  have ht : ∀ r : List Char, (l ++ '\n' :: r).takeWhile (fun c => c != '\n') = l := by
    intro r
    rw [List.takeWhile_append_of_pos]
    · simp
    · intro c hc
      have : c ≠ '\n' := fun e => hl (e ▸ hc)
      simpa using this
  have hd : ∀ r : List Char, (l ++ '\n' :: r).dropWhile (fun c => c != '\n') = '\n' :: r := by
    intro r
    rw [List.dropWhile_append_of_pos]
    · simp
    · intro c hc
      have : c ≠ '\n' := fun e => hl (e ▸ hc)
      simpa using this
  rw [hc, ht] at hi
  refine ⟨l ++ ['\n'], cstr rest, extract_message_append l rest hl hn hi, ?_, ?_, ?_, ?_, ?_⟩
  · rw [hc, ht]
  · rw [hc, hd]
    simp
  · rw [hc]
    simp
  · rw [List.count_append, List.count_eq_zero_of_not_mem hl]
    simp
  · simp

theorem extract_message_first_line_witness :
    '\n' ∈ cstr "ab\ncd\ne".toList ∧
    ((cstr "ab\ncd\ne".toList).takeWhile (fun c => c != '\n')).length < INT_MAX ∧
    ∃ line rest,
      extract_message true (some "ab\ncd\ne".toList) = some ⟨1, some rest, some line⟩ ∧
      line = (cstr "ab\ncd\ne".toList).takeWhile (fun c => c != '\n') ++ ['\n'] ∧
      rest = ((cstr "ab\ncd\ne".toList).dropWhile (fun c => c != '\n')).drop 1 ∧
      line ++ rest = cstr "ab\ncd\ne".toList ∧
      line.count '\n' = 1 ∧
      line.getLast? = some '\n' :=
  ⟨by decide, by decide,
   extract_message_first_line "ab\ncd\ne".toList (by decide) (by decide)⟩

/-! ## Formatting -/

theorem toDigitsCore_length (fuel n k : Nat) (ds : List Char) (hk : 0 < k) (h : n < 10 ^ k) :
    (Nat.toDigitsCore 10 fuel n ds).length ≤ ds.length + k := by
  induction fuel generalizing n k ds with
  | zero => simp [Nat.toDigitsCore]
  | succ fuel ih =>
    simp only [Nat.toDigitsCore]
    split
    · simp
      omega
    · rename_i hne
      have hk2 : 2 ≤ k := by
        by_contra hlt
        have : k = 1 := by omega
        subst this
        have : n / 10 = 0 := Nat.div_eq_of_lt (by simpa using h)
        exact hne this
      have hdiv : n / 10 < 10 ^ (k - 1) := by
        have e : 10 ^ k = 10 ^ (k - 1) * 10 := by
          rw [← Nat.pow_succ]
          congr 1
          omega
        rw [e] at h
        exact Nat.div_lt_of_lt_mul (by rwa [Nat.mul_comm] at h)
      have := ih (n / 10) (k - 1) (Nat.digitChar (n % 10) :: ds) (by omega) hdiv
      simp at this
      omega

theorem fmt_int_length (n : Int) (h : is_int n) : (fmt_int n).length ≤ 11 := by
  obtain ⟨h1, h2⟩ := h
  cases n with
  | ofNat m =>
    have hm : m < 10 ^ 10 := by
      have : (m : Int) < 2 ^ 31 := h2
      omega
    have := toDigitsCore_length (m + 1) m 10 [] (by omega) hm
    simp [fmt_int, Nat.toDigits] at *
    omega
  | negSucc m =>
    have hm : m + 1 < 10 ^ 10 := by
      have : -2 ^ 31 ≤ Int.negSucc m := h1
      rw [Int.negSucc_eq] at this
      omega
    have := toDigitsCore_length (m + 1 + 1) (m + 1) 10 [] (by omega) hm
    simp [fmt_int, Nat.toDigits] at *
    omega

theorem sprintf_arrival (id : Int) (h : is_int id) :
    sprintf (arrival_text id) = some (arrival_text id) := by
  have := fmt_int_length id h
  simp [sprintf, arrival_text, SEND_BUFFER_SIZE]
  omega

theorem sprintf_left (id : Int) (h : is_int id) :
    sprintf (left_text id) = some (left_text id) := by
  have := fmt_int_length id h
  simp [sprintf, left_text, SEND_BUFFER_SIZE]
  omega


/-! ## `send_to_all` -/

theorem send_loop_ok (s : Server) (ok : Nat → Bool) (except : Int) (l : List Nat)
    (h : ∀ fd ∈ l, ok fd = true) :
    send_loop s ok except l
      = ((l.filter (fun fd =>
            s.current fd && (fd : Int) != s.serverfd && (fd : Int) != except)).map
          (fun fd => Effect.send fd (cstr s.send_buffer)), Status.running) := by
  induction l with
  | nil => rfl
  | cons fd rest ih =>
    have h1 : ok fd = true := h fd (by simp)
    have h2 : ∀ x ∈ rest, ok x = true := fun x hx => h x (List.mem_cons_of_mem _ hx)
    by_cases hc : (s.current fd && (fd : Int) != s.serverfd && (fd : Int) != except) = true
    · rw [send_loop, if_pos hc, if_pos h1, ih h2, List.filter_cons, if_pos hc]
      rfl
    · rw [send_loop, if_neg hc, ih h2, List.filter_cons, if_neg hc]

theorem send_to_all_ok (s : Server) (ok : Nat → Bool) (except : Int)
    (h : ∀ fd, ok fd = true) :
    send_to_all s ok except
      = ((active_except s except).map (fun fd => Effect.send fd (cstr s.send_buffer)),
         Status.running) := by
  rw [send_to_all, send_loop_ok s ok except _ (fun fd _ => h fd)]
  simp [active_except, connections, List.filter_filter, Bool.and_comm, Bool.and_assoc]

theorem mem_connections (s : Server) (fd : Nat) :
    fd ∈ connections s
      ↔ (fd : Int) ≤ s.maxfd ∧ s.current fd = true ∧ (fd : Int) ≠ s.serverfd := by
  simp only [connections, List.mem_filter, List.mem_range, Bool.and_eq_true, bne_iff_ne]
  constructor
  · rintro ⟨h1, h2, h3⟩
    exact ⟨by omega, h2, h3⟩
  · rintro ⟨h1, h2, h3⟩
    exact ⟨by omega, h2, h3⟩

theorem mem_active_except (s : Server) (except : Int) (fd : Nat) :
    fd ∈ active_except s except
      ↔ (fd : Int) ≤ s.maxfd ∧ s.current fd = true ∧ (fd : Int) ≠ s.serverfd
          ∧ (fd : Int) ≠ except := by
  simp only [active_except, List.mem_filter, mem_connections, bne_iff_ne]
  tauto

theorem connections_sorted (s : Server) : (connections s).Sorted (· < ·) :=
  (List.sorted_lt_range _).filter _

theorem active_except_sorted (s : Server) (except : Int) :
    (active_except s except).Sorted (· < ·) :=
  (connections_sorted s).filter _

theorem active_except_length (s : Server) (x : Nat) (hx : x ∈ connections s) :
    (active_except s x).length + 1 = (connections s).length := by
  have hnd : (connections s).Nodup := (connections_sorted s).nodup
  have e : active_except s x = (connections s).erase x := by
    rw [hnd.erase_eq_filter]
    simp only [active_except]
    congr 1
    funext fd
    simp [bne]
  rw [e, List.length_erase_of_mem hx]
  have : 0 < (connections s).length := List.length_pos_of_mem hx
  omega

/-- Two scans see the same connections when they agree on the handles they keep. -/
theorem sorted_ext (l1 l2 : List Nat) (h1 : l1.Sorted (· < ·)) (h2 : l2.Sorted (· < ·))
    (h : ∀ x, x ∈ l1 ↔ x ∈ l2) : l1 = l2 :=
  List.eq_of_perm_of_sorted ((List.perm_ext_iff_of_nodup h1.nodup h2.nodup).2 h) h1 h2


/-! ## Where sends go -/

theorem send_loop_sends (s : Server) (ok : Nat → Bool) (except : Int) (l : List Nat)
    (x : Nat) (t : List Char) (h : Effect.send x t ∈ (send_loop s ok except l).1) :
    x ∈ l ∧ s.current x = true ∧ (x : Int) ≠ s.serverfd ∧ (x : Int) ≠ except
      ∧ t = cstr s.send_buffer := by
  induction l with
  | nil => simp [send_loop] at h
  | cons fd rest ih =>
    rw [send_loop] at h
    split at h
    · rename_i hc
      split at h
      · simp only [List.mem_cons, Effect.send.injEq] at h
        rcases h with ⟨rfl, rfl⟩ | h
        · simp only [Bool.and_eq_true, bne_iff_ne] at hc
          exact ⟨by simp, hc.1.1, hc.1.2, hc.2, rfl⟩
        · obtain ⟨h1, h2⟩ := ih h
          exact ⟨List.mem_cons_of_mem _ h1, h2⟩
      · simp [err] at h
    · obtain ⟨h1, h2⟩ := ih h
      exact ⟨List.mem_cons_of_mem _ h1, h2⟩

theorem send_to_all_sends (s : Server) (ok : Nat → Bool) (except : Int)
    (x : Nat) (t : List Char) (h : Effect.send x t ∈ (send_to_all s ok except).1) :
    s.current x = true ∧ (x : Int) ≠ s.serverfd ∧ (x : Int) ≠ except
      ∧ t = cstr s.send_buffer :=
  (send_loop_sends s ok except _ x t h).2

theorem message_loop_frame (w : Oracle) (fd : Nat) (fuel k : Nat) (s : Server) :
    (message_loop w fd fuel k s).state.current = s.current ∧
    (message_loop w fd fuel k s).state.maxfd = s.maxfd ∧
    (message_loop w fd fuel k s).state.serverfd = s.serverfd ∧
    (message_loop w fd fuel k s).state.gid = s.gid ∧
    (∀ x, x ≠ fd → (message_loop w fd fuel k s).state.clients x = s.clients x) ∧
    ((message_loop w fd fuel k s).state.clients fd).id = (s.clients fd).id := by
  induction fuel generalizing k s with
  | zero => simp [message_loop]
  | succ fuel ih =>
    cases hx : extract_message (w.alloc (k + 1)) (s.clients fd).msg with
    | none => simp [message_loop, hx]
    | some e =>
      obtain ⟨ret, buf1, message⟩ := e
      simp only [message_loop, hx]
      split
      · split
        · refine ⟨rfl, rfl, rfl, rfl, ?_, ?_⟩
          · intro x hx
            simp [Function.update_noteq hx]
          · simp
        · rename_i text _
          split
          · obtain ⟨h1, h2, h3, h4, h5, h6⟩ := ih (k + 1)
              { s with
                clients := Function.update s.clients fd ⟨(s.clients fd).id, buf1⟩
                send_buffer := text }
            refine ⟨h1, h2, h3, h4, ?_, ?_⟩
            · intro x hx
              rw [h5 x hx]
              simp [Function.update_noteq hx]
            · rw [h6]
              simp
          · refine ⟨rfl, rfl, rfl, rfl, ?_, ?_⟩
            · intro x hx
              simp [Function.update_noteq hx]
            · simp
      · refine ⟨rfl, rfl, rfl, rfl, ?_, ?_⟩
        · intro x hx
          simp [Function.update_noteq hx]
        · simp

theorem message_loop_sends (w : Oracle) (fd : Nat) (fuel k : Nat) (s : Server)
    (x : Nat) (t : List Char) (h : Effect.send x t ∈ (message_loop w fd fuel k s).effects) :
    s.current x = true ∧ (x : Int) ≠ s.serverfd ∧ (x : Int) ≠ fd := by
  induction fuel generalizing k s with
  | zero => simp [message_loop] at h
  | succ fuel ih =>
    cases hx : extract_message (w.alloc (k + 1)) (s.clients fd).msg with
    | none => simp [message_loop, hx] at h
    | some e =>
      obtain ⟨ret, buf1, message⟩ := e
      simp only [message_loop, hx] at h
      split at h
      · split at h
        · simp at h
        · split at h
          · simp only [List.mem_cons, List.mem_append, reduceCtorEq, false_or] at h
            rcases h with h | h
            · obtain ⟨h1, h2, h3, _⟩ := send_to_all_sends _ _ _ x t h
              exact ⟨h1, h2, h3⟩
            · have h2 := ih _ _ h
              exact h2
          · simp only [List.mem_cons, reduceCtorEq, false_or] at h
            obtain ⟨h1, h2, h3, _⟩ := send_to_all_sends _ _ _ x t h
            exact ⟨h1, h2, h3⟩
      · simp at h

/-! ## The formatted texts are C strings -/

theorem digitChar_ne_NUL (n : Nat) : Nat.digitChar n ≠ NUL := by
  by_cases h : n < 16
  · interval_cases n <;> decide
  · unfold Nat.digitChar
    iterate 16 rw [if_neg (by omega)]
    decide

theorem NUL_not_mem_toDigitsCore (fuel n : Nat) (ds : List Char) (h : NUL ∉ ds) :
    NUL ∉ Nat.toDigitsCore 10 fuel n ds := by
  induction fuel generalizing n ds with
  | zero => simpa [Nat.toDigitsCore] using h
  | succ fuel ih =>
    have hd : NUL ∉ Nat.digitChar (n % 10) :: ds := by
      simp [h, Ne.symm (digitChar_ne_NUL (n % 10))]
    simp only [Nat.toDigitsCore]
    split
    · exact hd
    · exact ih _ _ hd

theorem NUL_not_mem_fmt_int (n : Int) : NUL ∉ fmt_int n := by
  cases n with
  | ofNat m => exact NUL_not_mem_toDigitsCore _ _ _ (by simp)
  | negSucc m =>
    have := NUL_not_mem_toDigitsCore (m + 1 + 1) (m + 1) [] (by simp)
    simp only [fmt_int, List.mem_cons, not_or]
    exact ⟨by decide, this⟩

theorem cstr_arrival_text (id : Int) : cstr (arrival_text id) = arrival_text id := by
  apply cstr_of_not_mem
  have := NUL_not_mem_fmt_int id
  simp only [arrival_text, List.mem_append, not_or]
  exact ⟨⟨by decide, this⟩, by decide⟩

theorem cstr_left_text (id : Int) : cstr (left_text id) = left_text id := by
  apply cstr_of_not_mem
  have := NUL_not_mem_fmt_int id
  simp only [left_text, List.mem_append, not_or]
  exact ⟨⟨by decide, this⟩, by decide⟩

theorem cstr_chat_text (id : Int) (m : List Char) : cstr (chat_text id m) = chat_text id m := by
  apply cstr_of_not_mem
  have := NUL_not_mem_fmt_int id
  simp only [chat_text, List.mem_append, not_or]
  exact ⟨⟨⟨by decide, this⟩, by decide⟩, NUL_not_mem_cstr m⟩


/-! ## The disconnect branch -/

theorem recv_step_closed (w : Oracle) (s : Server) (fd : Nat) (ret : Int) (data : List Char)
    (hret : ret ≤ 0) (hid : is_int (s.clients fd).id) (hok : ∀ x, w.sendOk 0 x = true) :
    recv_step w s fd ret data
      = ⟨{ s with
            send_buffer := left_text (s.clients fd).id
            clients := Function.update s.clients fd ⟨(s.clients fd).id, none⟩
            current := Function.update s.current fd false },
         Effect.stdout (left_text (s.clients fd).id)
           :: (active_except s fd).map (fun x => Effect.send x (left_text (s.clients fd).id))
           ++ [Effect.close fd],
         Status.running⟩ := by
  have h1 : ¬ ret > 0 := by omega
  simp only [recv_step, h1, if_false, sprintf_left _ hid]
  rw [send_to_all_ok _ _ _ hok]
  simp only [cstr_left_text]
  rfl

/-! ## The admission branch -/

theorem accept_step_ok (w : Oracle) (s : Server) (c : Int)
    (h0 : 0 ≤ c) (h1 : c < CLIENTS_SIZE) (hg : is_int s.gid)
    (hok : ∀ x, w.sendOk 0 x = true) :
    accept_step w s c
      = ⟨{ s with
            current := Function.update s.current c.toNat true
            clients := Function.update s.clients c.toNat ⟨s.gid, none⟩
            gid := wrap_int (s.gid + 1)
            maxfd := if c > s.maxfd then c else s.maxfd
            send_buffer := arrival_text s.gid },
         Effect.stdout (arrival_text s.gid)
           :: (active_except
                { s with
                  current := Function.update s.current c.toNat true
                  maxfd := if c > s.maxfd then c else s.maxfd } c).map
              (fun x => Effect.send x (arrival_text s.gid)),
         Status.running⟩ := by
  have h0' : ¬ c < 0 := by omega
  have h1' : ¬ CLIENTS_SIZE ≤ c := by omega
  simp only [accept_step, h0', h1', if_false]
  by_cases hm : c > s.maxfd
  · simp only [hm, if_true, Function.update_same, Function.update_idem,
      sprintf_arrival _ hg, cstr_arrival_text]
    rw [send_to_all_ok _ _ _ hok]
    simp only [cstr_arrival_text]
    rfl
  · simp only [hm, if_false, Function.update_same, Function.update_idem,
      sprintf_arrival _ hg, cstr_arrival_text]
    rw [send_to_all_ok _ _ _ hok]
    simp only [cstr_arrival_text]
    rfl

/-- With the high-water mark above every active handle, the scan made for the arrival
notice of `c` sees the connections that were there before, `c` apart. -/
theorem active_except_admitted (s : Server) (c : Int) (h0 : 0 ≤ c)
    (hmax : ∀ x, s.current x = true → (x : Int) ≤ s.maxfd) :
    active_except
        { s with
          current := Function.update s.current c.toNat true
          maxfd := if c > s.maxfd then c else s.maxfd } c
      = active_except s c := by
  apply sorted_ext _ _ (active_except_sorted _ _) (active_except_sorted _ _)
  intro x
  simp only [mem_active_except]
  by_cases hx : x = c.toNat
  · subst hx
    simp [Int.toNat_of_nonneg h0]
  · simp only [Function.update_noteq hx]
    constructor
    · rintro ⟨_, h2, h3, h4⟩
      exact ⟨hmax x h2, h2, h3, h4⟩
    · rintro ⟨h1, h2, h3, h4⟩
      refine ⟨?_, h2, h3, h4⟩
      split <;> omega

theorem active_except_fresh (s : Server) (c : Int) (h0 : 0 ≤ c)
    (hfresh : s.current c.toNat = false) :
    active_except s c = connections s := by
  apply sorted_ext _ _ (active_except_sorted _ _) (connections_sorted _)
  intro x
  simp only [mem_active_except, mem_connections]
  constructor
  · rintro ⟨h1, h2, h3, _⟩
    exact ⟨h1, h2, h3⟩
  · rintro ⟨h1, h2, h3⟩
    refine ⟨h1, h2, h3, ?_⟩
    intro e
    have : x = c.toNat := by omega
    subst this
    rw [hfresh] at h2
    exact absurd h2 (by simp)


/-! ## Every send of a step goes to another, active connection -/

theorem accept_step_sends (w : Oracle) (s : Server) (c : Int) (x : Nat) (t : List Char)
    (h : Effect.send x t ∈ (accept_step w s c).effects) :
    s.current x = true ∧ (x : Int) ≠ s.serverfd ∧ (x : Int) ≠ c := by
  simp only [accept_step] at h
  split at h
  · simp at h
  · split at h
    · simp at h
    · rename_i h0 h1
      split at h
      · simp at h
      · simp only [List.mem_cons, reduceCtorEq, false_or] at h
        obtain ⟨h2, h3, h4, _⟩ := send_to_all_sends _ _ _ x t h
        have hx : x ≠ c.toNat := by omega
        refine ⟨?_, ?_, h4⟩
        · split at h2 <;> simpa [Function.update_noteq hx] using h2
        · split at h3 <;> exact h3

theorem recv_step_sends (w : Oracle) (s : Server) (fd : Nat) (ret : Int) (data : List Char)
    (x : Nat) (t : List Char)
    (h : Effect.send x t ∈ (recv_step w s fd ret data).effects) :
    s.current x = true ∧ (x : Int) ≠ s.serverfd ∧ (x : Int) ≠ fd := by
  simp only [recv_step] at h
  split at h
  · split at h
    · simp [err] at h
    · simp at h
    · have h2 := message_loop_sends _ _ _ _ _ x t h
      exact h2
  · split at h
    · simp at h
    · split at h
      · simp only [List.mem_cons, List.mem_append, reduceCtorEq, false_or, List.mem_singleton,
          List.not_mem_nil, or_false] at h
        obtain ⟨h2, h3, h4, _⟩ := send_to_all_sends _ _ _ x t h
        exact ⟨h2, h3, h4⟩
      · simp only [List.mem_cons, reduceCtorEq, false_or] at h
        obtain ⟨h2, h3, h4, _⟩ := send_to_all_sends _ _ _ x t h
        exact ⟨h2, h3, h4⟩

theorem step_sends (w : Oracle) (s : Server) (e : Event) (x : Nat) (t : List Char)
    (h : Effect.send x t ∈ (step w s e).effects) :
    s.current x = true ∧ (x : Int) ≠ s.serverfd ∧ (x : Int) ≠ e.source := by
  cases e with
  | accept c => exact accept_step_sends w s c x t h
  | recv fd ret data => exact recv_step_sends w s fd ret data x t h

/-! ## What a step does to the active set -/

theorem accept_step_current (w : Oracle) (s : Server) (c : Int) (x : Nat)
    (hx : (x : Int) ≠ c) :
    (accept_step w s c).state.current x = s.current x := by
  simp only [accept_step]
  have hx2 : c < 0 ∨ x ≠ c.toNat := by omega
  split
  · rfl
  · split
    · rfl
    · rename_i h0 _
      have hx3 : x ≠ c.toNat := by omega
      split <;> split <;> simp [Function.update_noteq hx3]

theorem recv_step_current (w : Oracle) (s : Server) (fd : Nat) (ret : Int) (data : List Char)
    (x : Nat) :
    (recv_step w s fd ret data).state.current x = s.current x ∨
    (x = fd ∧ (recv_step w s fd ret data).state.current x = false) := by
  simp only [recv_step]
  split
  · split
    · exact Or.inl rfl
    · exact Or.inl rfl
    · rw [(message_loop_frame _ _ _ _ _).1]
      exact Or.inl rfl
  · split
    · exact Or.inl rfl
    · split
      · by_cases hx : x = fd
        · subst hx
          exact Or.inr ⟨rfl, by simp⟩
        · exact Or.inl (by simp [Function.update_noteq hx])
      · exact Or.inl rfl

theorem step_keeps_inactive (w : Oracle) (s : Server) (e : Event) (x : Nat)
    (hx : s.current x = false) (he : e ≠ Event.accept x) :
    (step w s e).state.current x = false := by
  cases e with
  | accept c =>
    have hc : (x : Int) ≠ c := fun e => he (by rw [e])
    simp only [step]
    rw [accept_step_current w s c x hc, hx]
  | recv fd ret data =>
    simp only [step]
    rcases recv_step_current w s fd ret data x with h | ⟨_, h⟩
    · rw [h, hx]
    · exact h

theorem run_no_send_to_inactive (s : Server) (evs : List (Oracle × Event)) (x : Nat)
    (hx : s.current x = false) (he : ∀ we ∈ evs, we.2 ≠ Event.accept x) (t : List Char) :
    Effect.send x t ∉ (run s evs).effects := by
  induction evs generalizing s with
  | nil => simp [run]
  | cons we rest ih =>
    obtain ⟨w, e⟩ := we
    have he0 : e ≠ Event.accept x := he (w, e) (by simp)
    have hrest : ∀ we ∈ rest, we.2 ≠ Event.accept x :=
      fun we h => he we (List.mem_cons_of_mem _ h)
    have h1 : Effect.send x t ∉ (step w s e).effects := by
      intro h
      have := (step_sends w s e x t h).1
      rw [hx] at this
      exact absurd this (by simp)
    simp only [run]
    split
    · simp only [List.mem_append, not_or]
      exact ⟨h1, ih _ (step_keeps_inactive w s e x hx he0) hrest⟩
    · exact h1


/-! ## The high-water mark -/

theorem init_high_water (serverfd : Int) : high_water (init serverfd) := by
  intro x hx
  simp only [init, beq_iff_eq] at hx
  simp [init, hx]

theorem accept_step_high_water (w : Oracle) (s : Server) (c : Int) (h : high_water s) :
    high_water (accept_step w s c).state := by
  simp only [accept_step]
  split
  · exact h
  · split
    · exact h
    · rename_i h0 _
      have key : ∀ x, Function.update s.current c.toNat true x = true →
          (x : Int) ≤ (if c > s.maxfd then c else s.maxfd) := by
        intro x hx
        by_cases hxc : x = c.toNat
        · subst hxc
          split <;> omega
        · rw [Function.update_noteq hxc] at hx
          have := h x hx
          split <;> omega
      split
      · intro x hx
        have := key x (by split at hx <;> exact hx)
        split at this
        · rename_i hm
          simp only [hm, if_true]
          exact this
        · rename_i hm
          simp only [hm, if_false]
          exact this
      · intro x hx
        have := key x (by split at hx <;> exact hx)
        split at this
        · rename_i hm
          simp only [hm, if_true]
          exact this
        · rename_i hm
          simp only [hm, if_false]
          exact this

theorem recv_step_maxfd (w : Oracle) (s : Server) (fd : Nat) (ret : Int) (data : List Char) :
    (recv_step w s fd ret data).state.maxfd = s.maxfd := by
  simp only [recv_step]
  split
  · split
    · rfl
    · rfl
    · rw [(message_loop_frame _ _ _ _ _).2.1]
  · split
    · rfl
    · split <;> rfl

theorem recv_step_high_water (w : Oracle) (s : Server) (fd : Nat) (ret : Int)
    (data : List Char) (h : high_water s) :
    high_water (recv_step w s fd ret data).state := by
  intro x hx
  rw [recv_step_maxfd]
  rcases recv_step_current w s fd ret data x with e | ⟨_, e⟩
  · rw [e] at hx
    exact h x hx
  · rw [e] at hx
    exact absurd hx (by simp)

theorem step_high_water (w : Oracle) (s : Server) (e : Event) (h : high_water s) :
    high_water (step w s e).state := by
  cases e with
  | accept c => exact accept_step_high_water w s c h
  | recv fd ret data => exact recv_step_high_water w s fd ret data h

theorem run_high_water (s : Server) (evs : List (Oracle × Event)) (h : high_water s) :
    high_water (run s evs).state := by
  induction evs generalizing s with
  | nil => exact h
  | cons we rest ih =>
    obtain ⟨w, e⟩ := we
    simp only [run]
    split
    · exact ih _ (step_high_water w s e h)
    · exact step_high_water w s e h


/-! ## What a connection receives -/

theorem received_append (fd : Nat) (a b : List Effect) :
    received fd (a ++ b) = received fd a ++ received fd b := by
  induction a with
  | nil => rfl
  | cons e rest ih =>
    cases e with
    | send dest text =>
      by_cases h : dest = fd <;> simp [received, h, ih]
    | stdout text => simpa [received] using ih
    | stderr text => simpa [received] using ih
    | close x => simpa [received] using ih

theorem received_map_send (fd : Nat) (t : List Char) (l : List Nat) (h : l.Nodup) :
    received fd (l.map (fun x => Effect.send x t)) = if fd ∈ l then [t] else [] := by
  induction l with
  | nil => simp [received]
  | cons a rest ih =>
    have hn : a ∉ rest := (List.nodup_cons.1 h).1
    have hr := ih (List.nodup_cons.1 h).2
    by_cases ha : a = fd
    · subst ha
      simp [received, hr, hn]
    · have ha2 : ¬ fd = a := fun e => ha e.symm
      simp [received, ha, ha2, hr]

/-! ## Claims on the fan-out and on the event loop -/

/-- C4: when every send succeeds and the high-water mark is above the active handles,
`send_to_all(except)` ends normally and sends the content of `send_buffer` once to each
handle of `current` other than the listening one and `except`, in increasing handle order,
and to nobody else; when `except` is one of the `N` connections, `N - 1` sends are made. -/
theorem send_to_all_fan_out (s : Server) (ok : Nat → Bool) (except : Int)
    (hok : ∀ fd, ok fd = true) (hmax : high_water s) :
    (send_to_all s ok except).2 = Status.running ∧
    (∃ recipients : List Nat,
      (send_to_all s ok except).1
        = recipients.map (fun fd => Effect.send fd (cstr s.send_buffer)) ∧
      recipients.Sorted (· < ·) ∧
      ∀ fd, fd ∈ recipients ↔
        s.current fd = true ∧ (fd : Int) ≠ s.serverfd ∧ (fd : Int) ≠ except) ∧
    (∀ fd, received fd (send_to_all s ok except).1
        = if s.current fd = true ∧ (fd : Int) ≠ s.serverfd ∧ (fd : Int) ≠ except
          then [cstr s.send_buffer] else []) ∧
    (∀ x : Nat, except = x → s.current x = true → (x : Int) ≠ s.serverfd →
        (send_to_all s ok except).1.length + 1 = (connections s).length) ∧
    (connections s).Nodup ∧
    (∀ fd, fd ∈ connections s ↔ s.current fd = true ∧ (fd : Int) ≠ s.serverfd) := by
  have hmem : ∀ fd, fd ∈ active_except s except ↔
      s.current fd = true ∧ (fd : Int) ≠ s.serverfd ∧ (fd : Int) ≠ except := by
    intro fd
    rw [mem_active_except]
    constructor
    · rintro ⟨_, h⟩
      exact h
    · intro h
      exact ⟨hmax fd h.1, h⟩
  have hconn : ∀ fd, fd ∈ connections s ↔ s.current fd = true ∧ (fd : Int) ≠ s.serverfd := by
    intro fd
    rw [mem_connections]
    constructor
    · rintro ⟨_, h⟩
      exact h
    · intro h
      exact ⟨hmax fd h.1, h⟩
  rw [send_to_all_ok s ok except hok]
  refine ⟨rfl, ⟨active_except s except, rfl, active_except_sorted s except, hmem⟩, ?_, ?_,
    (connections_sorted s).nodup, hconn⟩
  · intro fd
    simp only []
    rw [received_map_send fd _ _ (active_except_sorted s except).nodup]
    simp only [hmem]
  · intro x hx h1 h2
    subst hx
    simp only [List.length_map]
    exact active_except_length s x ((hconn x).2 ⟨h1, h2⟩)

theorem send_to_all_fan_out_witness :
    high_water three_clients ∧
    (send_to_all three_clients (fun _ => true) 5).1
      = [Effect.send 4 "server: client 2 just arrived\n".toList,
         Effect.send 6 "server: client 2 just arrived\n".toList] ∧
    (connections three_clients).length = 3 ∧
    (send_to_all three_clients (fun _ => true) 5).1.length + 1
      = (connections three_clients).length :=
  ⟨run_high_water _ _ (init_high_water 3), by decide, by decide,
   (send_to_all_fan_out three_clients (fun _ => true) 5 (fun _ => rfl)
      (run_high_water _ _ (init_high_water 3))).2.2.2.1 5 rfl (by decide) (by decide)⟩

/-- C5: whatever the state, the event and the answers of the environment, no send made
while an event is handled goes to the connection the event is about: the accepted
connection for an admission, the connection read for received bytes and for a
disconnect. -/
theorem no_self_delivery (w : Oracle) (s : Server) (e : Event) (x : Nat) (t : List Char)
    (h : Effect.send x t ∈ (step w s e).effects) :
    (x : Int) ≠ e.source :=
  (step_sends w s e x t h).2.2

theorem no_self_delivery_witness :
    Effect.send 5 "client 0: hello\n".toList
      ∈ (step Oracle.ok two_clients (Event.recv 4 6 "hello\n".toList)).effects ∧
    ((5 : Nat) : Int) ≠ (Event.recv 4 6 "hello\n".toList).source :=
  ⟨by decide,
   no_self_delivery Oracle.ok two_clients (Event.recv 4 6 "hello\n".toList) 5
     "client 0: hello\n".toList (by decide)⟩


/-- C8 (as stated, refuted): `accept` may succeed with a handle that `clients` and an
`fd_set` cannot hold; for the fresh handle 1024 the admission writes outside both, and the
handle is neither registered nor announced. -/
theorem admission_out_of_range :
    (init 3).current 1024 = false ∧
    (step Oracle.ok (init 3) (Event.accept 1024)).status = Status.undefined ∧
    (step Oracle.ok (init 3) (Event.accept 1024)).state.current 1024 = false ∧
    (step Oracle.ok (init 3) (Event.accept 1024)).effects = [] := by
  decide

/-- C8 (amended): when `accept` succeeds with a fresh handle `c` below 1024, the sends
succeeding, the step gives `c` the identity `gid`, an empty (`NULL`) pending buffer and a
place in the active set, leaves the other entries as they were, advances `gid`, and sends
exactly the arrival notice of that identity to every connection that was active before,
in handle order, and nothing to `c`. -/
theorem admission (w : Oracle) (s : Server) (c : Int)
    (h0 : 0 ≤ c) (h1 : c < 1024) (hfresh : s.current c.toNat = false)
    (hg : is_int s.gid) (hok : ∀ x, w.sendOk 0 x = true) (hmax : high_water s) :
    (step w s (Event.accept c)).status = Status.running ∧
    (step w s (Event.accept c)).state.clients c.toNat = ⟨s.gid, none⟩ ∧
    (step w s (Event.accept c)).state.current c.toNat = true ∧
    (∀ x, x ≠ c.toNat →
      (step w s (Event.accept c)).state.current x = s.current x ∧
      (step w s (Event.accept c)).state.clients x = s.clients x) ∧
    (step w s (Event.accept c)).state.gid = wrap_int (s.gid + 1) ∧
    (step w s (Event.accept c)).effects
      = Effect.stdout (arrival_text s.gid)
          :: (connections s).map (fun x => Effect.send x (arrival_text s.gid)) ∧
    (∀ x, x ∈ connections s ↔ s.current x = true ∧ (x : Int) ≠ s.serverfd) ∧
    (∀ t, Effect.send c.toNat t ∉ (step w s (Event.accept c)).effects) := by
  have e := accept_step_ok w s c h0 h1 hg hok
  rw [active_except_admitted s c h0 hmax, active_except_fresh s c h0 hfresh] at e
  have hconn : ∀ x, x ∈ connections s ↔ s.current x = true ∧ (x : Int) ≠ s.serverfd := by
    intro x
    rw [mem_connections]
    exact ⟨fun h => h.2, fun h => ⟨hmax x h.1, h⟩⟩
  refine ⟨by simp only [step, e], by simp [step, e], by simp [step, e], ?_,
    by simp only [step, e], by simp only [step, e], hconn, ?_⟩
  · intro x hx
    simp [step, e, Function.update_noteq hx]
  · intro t ht
    simp only [step, e, List.mem_cons, reduceCtorEq, false_or, List.mem_map,
      Effect.send.injEq] at ht
    obtain ⟨x, hx, rfl, _⟩ := ht
    have := ((hconn _).1 hx).1
    rw [hfresh] at this
    exact absurd this (by simp)

theorem admission_witness :
    (0 : Int) ≤ 5 ∧ (5 : Int) < 1024 ∧ one_client.current (5 : Int).toNat = false ∧
    is_int one_client.gid ∧ high_water one_client ∧
    (step Oracle.ok one_client (Event.accept 5)).state.clients 5 = ⟨1, none⟩ ∧
    (step Oracle.ok one_client (Event.accept 5)).effects
      = [Effect.stdout "server: client 1 just arrived\n".toList,
         Effect.send 4 "server: client 1 just arrived\n".toList] ∧
    received 4 (step Oracle.ok one_client (Event.accept 5)).effects
      = ["server: client 1 just arrived\n".toList] ∧
    received 5 (step Oracle.ok one_client (Event.accept 5)).effects = [] :=
  ⟨by decide, by decide, by decide, by decide, run_high_water _ _ (init_high_water 3),
   (admission Oracle.ok one_client 5 (by decide) (by decide) (by decide) (by decide)
      (fun _ => rfl) (run_high_water _ _ (init_high_water 3))).2.1.trans (by decide),
   by decide, by decide, by decide⟩

/-- C10: after the disconnect step for a connection `fd` (the sends succeeding), `fd` is
out of the active set, its pending buffer is `NULL` and the handle has been closed; the
membership, identity and pending buffer of every other handle, the membership of the
listening handle, `serverfd` and `gid` are unchanged; and no later step sends anything to
`fd` as long as no admission gives that handle again. -/
theorem eviction_frame (w : Oracle) (s : Server) (fd : Nat) (ret : Int) (data : List Char)
    (hret : ret ≤ 0) (hid : is_int (s.clients fd).id) (hok : ∀ x, w.sendOk 0 x = true)
    (hfd : (fd : Int) ≠ s.serverfd) :
    (step w s (Event.recv fd ret data)).status = Status.running ∧
    (step w s (Event.recv fd ret data)).state.current fd = false ∧
    ((step w s (Event.recv fd ret data)).state.clients fd).msg = none ∧
    Effect.close fd ∈ (step w s (Event.recv fd ret data)).effects ∧
    (∀ x, x ≠ fd →
      (step w s (Event.recv fd ret data)).state.current x = s.current x ∧
      (step w s (Event.recv fd ret data)).state.clients x = s.clients x) ∧
    (∀ x : Nat, (x : Int) = s.serverfd →
      (step w s (Event.recv fd ret data)).state.current x = s.current x) ∧
    (step w s (Event.recv fd ret data)).state.serverfd = s.serverfd ∧
    (step w s (Event.recv fd ret data)).state.gid = s.gid ∧
    (∀ (evs : List (Oracle × Event)) (t : List Char),
      (∀ we ∈ evs, we.2 ≠ Event.accept fd) →
      Effect.send fd t ∉ (run (step w s (Event.recv fd ret data)).state evs).effects) := by
  have e := recv_step_closed w s fd ret data hret hid hok
  have hcur : (step w s (Event.recv fd ret data)).state.current fd = false := by
    simp [step, e]
  refine ⟨by simp only [step, e], hcur, by simp [step, e], by simp [step, e], ?_, ?_,
    by simp only [step, e], by simp only [step, e], ?_⟩
  · intro x hx
    simp [step, e, Function.update_noteq hx]
  · intro x hx
    have hne : x ≠ fd := fun h => hfd (by rw [← h, hx])
    simp [step, e, Function.update_noteq hne]
  · intro evs t hevs
    exact run_no_send_to_inactive _ evs fd hcur hevs t

theorem eviction_frame_witness :
    (0 : Int) ≤ 0 ∧ is_int (two_clients.clients 5).id ∧
    ((5 : Nat) : Int) ≠ two_clients.serverfd ∧
    (step Oracle.ok two_clients (Event.recv 5 0 [])).state.current 5 = false ∧
    (step Oracle.ok two_clients (Event.recv 5 0 [])).state.current 4 = true ∧
    received 5
      (run (step Oracle.ok two_clients (Event.recv 5 0 [])).state
        [(Oracle.ok, Event.recv 4 3 "hi\n".toList)]).effects = [] :=
  ⟨by decide, by decide, by decide,
   (eviction_frame Oracle.ok two_clients 5 0 [] (by decide) (by decide) (fun _ => rfl)
      (by decide)).2.1,
   by decide, by decide⟩


/-! ## The loop of the `recv` branch broadcasts what the framer emits -/

/-- With every send and allocation succeeding and every formatted text fitting in
`send_buffer`, the loop does what the framer does: for each message the framer emits, the
debug output then one send to every other connection; it ends as the framer ends. -/
theorem message_loop_eq_drain (w : Oracle) (fd : Nat) (fuel k : Nat) (s : Server)
    (hs : ∀ j x, w.sendOk j x = true) (ha : ∀ j, w.alloc j = true)
    (hfit : ∀ l ∈ (drain alloc_ok fuel (k + 1) (s.clients fd).msg).1,
      (chat_text (s.clients fd).id l).length + 1 ≤ SEND_BUFFER_SIZE) :
    (message_loop w fd fuel k s).status
      = (drain alloc_ok fuel (k + 1) (s.clients fd).msg).2.2 ∧
    (message_loop w fd fuel k s).effects
      = (drain alloc_ok fuel (k + 1) (s.clients fd).msg).1.flatMap (fun l =>
          Effect.stdout (chat_text (s.clients fd).id l)
            :: (active_except s fd).map
                (fun x => Effect.send x (chat_text (s.clients fd).id l))) ∧
    ((message_loop w fd fuel k s).state.clients fd).msg
      = (drain alloc_ok fuel (k + 1) (s.clients fd).msg).2.1 := by
  induction fuel generalizing k s with
  | zero => simp [message_loop, drain]
  | succ fuel ih =>
    cases hx : extract_message true (s.clients fd).msg with
    | none => simp [message_loop, drain, ha, alloc_ok, hx]
    | some e =>
      obtain ⟨ret, b1, m⟩ := e
      simp only [message_loop, drain, ha, alloc_ok, hx] at hfit ⊢
      by_cases hret : ret = 1
      · simp only [hret, if_true, List.mem_cons, forall_eq_or_imp, Function.update_same]
          at hfit ⊢
        obtain ⟨hfit1, hfit2⟩ := hfit
        have hsp : sprintf (chat_text (s.clients fd).id (m.getD []))
            = some (chat_text (s.clients fd).id (m.getD [])) := by
          simp [sprintf, hfit1]
        simp only [hsp]
        rw [send_to_all_ok _ _ _ (hs k)]
        simp only [cstr_chat_text]
        have := ih (k + 1)
          { s with
            clients := Function.update s.clients fd ⟨(s.clients fd).id, b1⟩
            send_buffer := chat_text (s.clients fd).id (m.getD []) }
          (by simpa using hfit2)
        simp only [Function.update_same] at this
        obtain ⟨h1, h2, h3⟩ := this
        refine ⟨h1, ?_, h3⟩
        rw [h2]
        simp only [List.flatMap_cons, List.cons_append]
        rfl
      · simp [hret]

/-! ## One read of a connection -/

/-- The three ways a call of `extract_message` goes: an `int` overflows; no line is taken
and the buffer stays; or the first line, shorter than `INT_MAX`, is taken. -/
theorem extract_message_line (ok : Bool) (buf : Option (List Char)) :
    extract_message ok buf = none ∨
    (∃ e, extract_message ok buf = some e ∧ e.ret ≠ 1 ∧ e.buf = buf ∧
      (ok = true → '\n' ∉ cstr (buf.getD []))) ∨
    ∃ l rest, buf = some (l ++ '\n' :: rest) ∧ '\n' ∉ l ∧ NUL ∉ l ∧ l.length < INT_MAX ∧
      extract_message ok buf = some ⟨1, some (cstr rest), some (l ++ ['\n'])⟩ := by
  cases buf with
  | none =>
    exact Or.inr (Or.inl ⟨⟨0, none, none⟩, by simp [extract_message], by decide, rfl,
      fun _ => by simp [cstr_nil]⟩)
  | some b =>
    by_cases h : '\n' ∈ cstr b
    · obtain ⟨l, rest, e, hl, hn⟩ := exists_first_newline b h
      subst e
      by_cases hb : l.length ≤ INT_MAX
      · have hs := scan_newline_append l rest 0 hl hn (by omega)
        simp only [Nat.zero_add] at hs
        cases ok with
        | true =>
          by_cases hb2 : l.length < INT_MAX
          · exact Or.inr (Or.inr ⟨l, rest, rfl, hl, hn, hb2,
              extract_message_append l rest hl hn hb2⟩)
          · exact Or.inl (extract_message_index_overflow l rest hl hn (by omega))
        | false =>
          exact Or.inr (Or.inl ⟨⟨-1, some (l ++ '\n' :: rest), none⟩,
            by simp [extract_message, hs], by simp, rfl, fun h => by simp at h⟩)
      · have hs := scan_newline_overflow l ('\n' :: rest) 0 hl hn (by omega) (by omega)
        exact Or.inl (by simp [extract_message, hs])
    · by_cases hb : strlen b ≤ INT_MAX
      · exact Or.inr (Or.inl ⟨⟨0, some b, none⟩, extract_message_no_newline ok b h hb,
          by simp, rfl, fun _ => by simpa using h⟩)
      · have hsplit : b = cstr b ++ b.dropWhile (fun c => c != NUL) := by
          simp only [cstr]
          exact (List.takeWhile_append_dropWhile _ _).symm
        have hs := scan_newline_overflow (cstr b) (b.dropWhile (fun c => c != NUL)) 0 h
          (NUL_not_mem_cstr b) (by omega) (by simp only [strlen] at hb; omega)
        rw [← hsplit] at hs
        exact Or.inl (by simp [extract_message, hs])

theorem drain_lines (alloc : Nat → Bool) (fuel k : Nat) (buf : Option (List Char))
    (l : List Char) (h : l ∈ (drain alloc fuel k buf).1) :
    ∃ l0, l = l0 ++ ['\n'] ∧ '\n' ∉ l0 ∧ NUL ∉ l0 := by
  induction fuel generalizing k buf with
  | zero => simp [drain] at h
  | succ fuel ih =>
    simp only [drain] at h
    rcases extract_message_line (alloc k) buf with
      hnone | ⟨e, he, hne, _, _⟩ | ⟨l0, rest, _, h1, h2, _, e⟩
    · simp [hnone] at h
    · obtain ⟨ret, b1, m⟩ := e
      simp only [] at hne
      simp [he, hne] at h
    · simp only [e, if_true, Option.getD_some, List.mem_cons] at h
      rcases h with rfl | h
      · exact ⟨l0, rfl, h1, h2⟩
      · exact ih _ _ h

theorem feed_all_single (msg : Option (List Char)) (data : List Char) :
    feed_all msg [data] = feed alloc_ok msg data := by
  rcases h : feed alloc_ok msg data with ⟨lines, msg1, st⟩
  cases st <;> simp [feed_all, h]

theorem feed_lines (alloc : Nat → Bool) (msg : Option (List Char)) (data l : List Char)
    (h : l ∈ (feed alloc msg data).1) :
    ∃ l0, l = l0 ++ ['\n'] ∧ '\n' ∉ l0 ∧ NUL ∉ l0 := by
  simp only [feed] at h
  split at h
  · simp at h
  · simp at h
  · exact drain_lines _ _ _ _ l h

theorem active_except_congr (s1 s2 : Server) (except : Int) (h1 : s1.current = s2.current)
    (h2 : s1.maxfd = s2.maxfd) (h3 : s1.serverfd = s2.serverfd) :
    active_except s1 except = active_except s2 except := by
  simp only [active_except, connections, h1, h2, h3]

/-- A read of `data` (at least one byte), every send and allocation succeeding, no `int`
overflowing in the framer and every formatted text fitting in `send_buffer`: the step ends
normally, broadcasts each message the framer emits, keeps the framer's pending buffer, and
touches nothing else but `send_buffer`. -/
theorem recv_step_data (w : Oracle) (s : Server) (fd : Nat) (data : List Char)
    (hdata : data ≠ []) (hs : ∀ j x, w.sendOk j x = true) (ha : ∀ j, w.alloc j = true)
    (hdef : (feed_all (s.clients fd).msg [data]).2.2 = Status.running)
    (hfit : ∀ l ∈ (feed_all (s.clients fd).msg [data]).1,
      (chat_text (s.clients fd).id l).length + 1 ≤ SEND_BUFFER_SIZE) :
    (recv_step w s fd data.length data).status = Status.running ∧
    (recv_step w s fd data.length data).effects
      = (feed_all (s.clients fd).msg [data]).1.flatMap (fun l =>
          Effect.stdout (chat_text (s.clients fd).id l)
            :: (active_except s fd).map
                (fun x => Effect.send x (chat_text (s.clients fd).id l))) ∧
    ((recv_step w s fd data.length data).state.clients fd).msg
      = (feed_all (s.clients fd).msg [data]).2.1 ∧
    ((recv_step w s fd data.length data).state.clients fd).id = (s.clients fd).id ∧
    (recv_step w s fd data.length data).state.current = s.current ∧
    (recv_step w s fd data.length data).state.maxfd = s.maxfd ∧
    (recv_step w s fd data.length data).state.serverfd = s.serverfd := by
  have hpos : ((data.length : Nat) : Int) > 0 := by
    have : 0 < data.length := List.length_pos.2 hdata
    omega
  rw [feed_all_single] at hdef hfit ⊢
  simp only [feed, alloc_ok] at hdef hfit ⊢
  cases hj : str_join true (s.clients fd).msg (recv_buffer_of data) with
  | fatal =>
    rw [hj] at hdef
    exact absurd hdef (by simp)
  | undefined =>
    rw [hj] at hdef
    exact absurd hdef (by simp)
  | ok joined =>
    rw [hj] at hdef hfit
    simp only [] at hdef hfit
    simp only [recv_step, hpos, if_true, Int.toNat_ofNat, List.take_length, ha, hj]
    have key := message_loop_eq_drain w fd (strlen joined + 1) 0
      { s with clients := Function.update s.clients fd ⟨(s.clients fd).id, some joined⟩ }
      hs ha (by simpa using hfit)
    have fr := message_loop_frame w fd (strlen joined + 1) 0
      { s with clients := Function.update s.clients fd ⟨(s.clients fd).id, some joined⟩ }
    simp only [Function.update_same] at key fr
    obtain ⟨k1, k2, k3⟩ := key
    obtain ⟨f1, f2, f3, _, _, f6⟩ := fr
    exact ⟨k1.trans hdef, k2, k3, f6, f1, f2, f3⟩

theorem chat_text_line (id : Int) (l : List Char) (h : NUL ∉ l) :
    chat_text id l = "client ".toList ++ fmt_int id ++ ": ".toList ++ l := by
  simp only [chat_text, cstr_of_not_mem l h]

/-- A read that completes a line too long for `send_buffer`: the first `sprintf` of the
loop writes past the end of the array, before anything is sent. -/
theorem recv_step_overflow (w : Oracle) (s : Server) (fd : Nat) (ret : Int) (l : List Char)
    (hret : ret = ((l ++ ['\n']).length : Nat)) (hp : (s.clients fd).msg = none)
    (hn : NUL ∉ l) (hl : '\n' ∉ l) (ha : ∀ j, w.alloc j = true)
    (hb : l.length < INT_MAX)
    (hbig : SEND_BUFFER_SIZE < (chat_text (s.clients fd).id (l ++ ['\n'])).length + 1) :
    (recv_step w s fd ret (l ++ ['\n'])).status = Status.undefined ∧
    (recv_step w s fd ret (l ++ ['\n'])).effects = [] := by
  subst hret
  have hpos : (((l ++ ['\n']).length : Nat) : Int) > 0 := by
    simp
  have hnn : NUL ∉ l ++ ['\n'] := by
    simp only [List.mem_append, List.mem_singleton, not_or]
    exact ⟨hn, by decide⟩
  have hj := str_join_eq none (l ++ ['\n']) (by simp) hnn (by simp)
  have hsp : sprintf (chat_text (s.clients fd).id (l ++ ['\n'])) = none := by
    simp only [sprintf, ite_eq_right_iff, reduceCtorEq, imp_false, not_le]
    exact hbig
  simp only [recv_step, hpos, if_true, Int.toNat_ofNat, List.take_length, ha, hp, hj,
    Option.getD_none, List.nil_append, message_loop, Function.update_same,
    extract_message_append l [] hl hn hb, Option.getD_some, hsp, and_self]

/-- A line of `n` letters and a newline sent in one read by the client of handle 4 in
`two_clients`, when `"client 0: "`, the line and the zero byte exceed `send_buffer`. -/
theorem long_line_overflow (n : Nat) (hbig : 4087 ≤ n + 1) (hsmall : n + 1 ≤ INT_MAX) :
    (feed_all (two_clients.clients 4).msg [List.replicate n 'a' ++ ['\n']]).1
      = [List.replicate n 'a' ++ ['\n']] ∧
    (step Oracle.ok two_clients
      (Event.recv 4 ((n + 1 : Nat) : Int) (List.replicate n 'a' ++ ['\n']))).status
        = Status.undefined ∧
    (step Oracle.ok two_clients
      (Event.recv 4 ((n + 1 : Nat) : Int) (List.replicate n 'a' ++ ['\n']))).effects = [] := by
  have hn : NUL ∉ List.replicate n 'a' := by
    simp only [List.mem_replicate, not_and]
    intro _
    decide
  have hl : '\n' ∉ List.replicate n 'a' := by
    simp only [List.mem_replicate, not_and]
    intro _
    decide
  have hp : (two_clients.clients 4).msg = none := by decide
  have hid : (two_clients.clients 4).id = 0 := by decide
  have hnn : NUL ∉ List.replicate n 'a' ++ ['\n'] := by
    simp only [List.mem_append, List.mem_singleton, not_or]
    exact ⟨hn, by decide⟩
  constructor
  · rw [hp, feed_all_eq_frame _ none (by simp) (by simp)
      (by intro c hc; rw [List.mem_singleton.1 hc]; exact hnn)
      (by simpa using hsmall)]
    simp only [List.flatten_cons, List.flatten_nil, List.append_nil, Option.getD_none,
      frame_newline _ [] [] hl]
    simp [frame]
  · have := recv_step_overflow Oracle.ok two_clients 4 ((n + 1 : Nat) : Int)
      (List.replicate n 'a') (by simp) hp hn hl (fun _ => rfl)
      (by simp only [List.length_replicate]; omega)
      (by
        rw [chat_text_line _ _ hnn, hid]
        simp [SEND_BUFFER_SIZE, fmt_int]
        omega)
    exact this

/-- C7 (the code at the failing input): client 0 sends a line of 4095 bytes in one read;
the framer emits it, but `"client 0: "` followed by it and the terminating zero byte need
4106 bytes and `send_buffer` has 4096: the formatting overruns the array and nothing is
relayed. -/
theorem chat_line_overflow :
    (feed_all (two_clients.clients 4).msg [List.replicate 4094 'a' ++ ['\n']]).1
      = [List.replicate 4094 'a' ++ ['\n']] ∧
    (step Oracle.ok two_clients
      (Event.recv 4 4095 (List.replicate 4094 'a' ++ ['\n']))).status = Status.undefined ∧
    (step Oracle.ok two_clients
      (Event.recv 4 4095 (List.replicate 4094 'a' ++ ['\n']))).effects = [] :=
  long_line_overflow 4094 (by decide) (by decide)

/-- The format of C7 within the bounds of `send_buffer`: for a read of at least one byte
on a connection `fd`, the sends and allocations succeeding and no `int` overflowing in the
framer, if for every line the framer emits the text `"client <id>: "` followed by the line
fits with its terminating zero byte in the 4096 bytes of `send_buffer`, then what is
broadcast for each emitted line, to every connection but `fd`, is exactly `"client "`, the
decimal identity, `": "` and the line, which ends with its newline; nothing is
appended. -/
theorem chat_line_format (w : Oracle) (s : Server) (fd : Nat) (data : List Char)
    (hdata : data ≠ []) (hs : ∀ j x, w.sendOk j x = true) (ha : ∀ j, w.alloc j = true)
    (hdef : (feed_all (s.clients fd).msg [data]).2.2 = Status.running)
    (hfit : ∀ l ∈ (feed_all (s.clients fd).msg [data]).1,
      ("client ".toList ++ fmt_int (s.clients fd).id ++ ": ".toList ++ l).length + 1
        ≤ 4096) :
    (step w s (Event.recv fd data.length data)).status = Status.running ∧
    (step w s (Event.recv fd data.length data)).effects
      = (feed_all (s.clients fd).msg [data]).1.flatMap (fun l =>
          Effect.stdout (chat_text (s.clients fd).id l)
            :: (active_except s fd).map
                (fun x => Effect.send x (chat_text (s.clients fd).id l))) ∧
    (∀ l ∈ (feed_all (s.clients fd).msg [data]).1,
      chat_text (s.clients fd).id l
        = "client ".toList ++ fmt_int (s.clients fd).id ++ ": ".toList ++ l ∧
      l.getLast? = some '\n') ∧
    (∀ x t, Effect.send x t ∈ (step w s (Event.recv fd data.length data)).effects →
      (x : Int) ≠ fd ∧
      ∃ l ∈ (feed_all (s.clients fd).msg [data]).1,
        t = "client ".toList ++ fmt_int (s.clients fd).id ++ ": ".toList ++ l) := by
  have hline : ∀ l ∈ (feed_all (s.clients fd).msg [data]).1,
      chat_text (s.clients fd).id l
        = "client ".toList ++ fmt_int (s.clients fd).id ++ ": ".toList ++ l ∧
      l.getLast? = some '\n' := by
    intro l hl
    rw [feed_all_single] at hl
    obtain ⟨l0, rfl, _, h0⟩ := feed_lines _ _ _ l hl
    have hnn : NUL ∉ l0 ++ ['\n'] := by
      simp only [List.mem_append, List.mem_singleton, not_or]
      exact ⟨h0, by decide⟩
    exact ⟨chat_text_line _ _ hnn, by simp⟩
  have hfit2 : ∀ l ∈ (feed_all (s.clients fd).msg [data]).1,
      (chat_text (s.clients fd).id l).length + 1 ≤ SEND_BUFFER_SIZE := by
    intro l hl
    rw [(hline l hl).1]
    exact hfit l hl
  obtain ⟨h1, h2, _⟩ := recv_step_data w s fd data hdata hs ha hdef hfit2
  refine ⟨h1, h2, hline, ?_⟩
  intro x t hx
  refine ⟨(step_sends w s _ x t hx).2.2, ?_⟩
  simp only [step] at hx
  rw [h2] at hx
  simp only [List.mem_flatMap, List.mem_cons, reduceCtorEq, false_or, List.mem_map,
    Effect.send.injEq] at hx
  obtain ⟨l, hl, y, _, _, rfl⟩ := hx
  exact ⟨l, hl, (hline l hl).1⟩

theorem chat_line_format_witness :
    "hello\n".toList ≠ [] ∧
    (feed_all (two_clients.clients 4).msg ["hello\n".toList]).2.2 = Status.running ∧
    (∀ l ∈ (feed_all (two_clients.clients 4).msg ["hello\n".toList]).1,
      ("client ".toList ++ fmt_int (two_clients.clients 4).id ++ ": ".toList ++ l).length + 1
        ≤ 4096) ∧
    (step Oracle.ok two_clients (Event.recv 4 6 "hello\n".toList)).effects
      = [Effect.stdout "client 0: hello\n".toList,
         Effect.send 5 "client 0: hello\n".toList] :=
  ⟨by decide, by decide, by decide,
   (chat_line_format Oracle.ok two_clients 4 "hello\n".toList (by decide) (fun _ _ => rfl)
      (fun _ => rfl) (by decide) (by decide)).2.1.trans (by decide)⟩


/-- C3 (as stated, refuted): client 0, whose pending buffer is empty, sends the three
bytes `x`, zero, `y` and then `"z\n"`; the first read has no newline and the second has
exactly one, as its last byte, yet the message relayed is `"client 0: xz\n"`: its line
part is not the first read followed by the second. -/
theorem pending_line_zero_byte :
    (two_clients.clients 4).msg = none ∧
    '\n' ∉ ['x', NUL, 'y'] ∧
    (step Oracle.ok two_clients (Event.recv 4 3 ['x', NUL, 'y'])).effects = [] ∧
    received 5
      (step Oracle.ok (step Oracle.ok two_clients (Event.recv 4 3 ['x', NUL, 'y'])).state
        (Event.recv 4 2 "z\n".toList)).effects
      = ["client 0: xz\n".toList] ∧
    "client 0: xz\n".toList ≠ "client 0: ".toList ++ (['x', NUL, 'y'] ++ "z\n".toList) := by
  decide

/-- C3 (amended): a connection `fd` with an empty pending buffer reads `a` then `b`, both
without zero byte, `a` without newline and `b` with exactly one newline, its last byte;
the sends and allocations succeed and `"client <id>: "` followed by `a`, `b` and the
terminating zero byte fits in `send_buffer`. Then the read of `a` sends and prints
nothing, and the read of `b` broadcasts exactly one message, `"client <id>: "` followed
by `a` then `b`, once to every other connection. -/
theorem pending_line_retention (w1 w2 : Oracle) (s : Server) (fd : Nat) (a b0 : List Char)
    (hp : (s.clients fd).msg.getD [] = []) (ha0 : a ≠ [])
    (han : NUL ∉ a) (hal : '\n' ∉ a) (hbn : NUL ∉ b0) (hbl : '\n' ∉ b0)
    (hs1 : ∀ j x, w1.sendOk j x = true) (ha1 : ∀ j, w1.alloc j = true)
    (hs2 : ∀ j x, w2.sendOk j x = true) (ha2 : ∀ j, w2.alloc j = true)
    (hfit : ("client ".toList ++ fmt_int (s.clients fd).id ++ ": ".toList
              ++ (a ++ (b0 ++ ['\n']))).length + 1 ≤ 4096) :
    (step w1 s (Event.recv fd a.length a)).status = Status.running ∧
    (step w1 s (Event.recv fd a.length a)).effects = [] ∧
    (step w2 (step w1 s (Event.recv fd a.length a)).state
        (Event.recv fd (b0 ++ ['\n']).length (b0 ++ ['\n']))).status = Status.running ∧
    (step w2 (step w1 s (Event.recv fd a.length a)).state
        (Event.recv fd (b0 ++ ['\n']).length (b0 ++ ['\n']))).effects
      = Effect.stdout ("client ".toList ++ fmt_int (s.clients fd).id ++ ": ".toList
            ++ (a ++ (b0 ++ ['\n'])))
          :: (active_except s fd).map (fun x =>
              Effect.send x ("client ".toList ++ fmt_int (s.clients fd).id ++ ": ".toList
                ++ (a ++ (b0 ++ ['\n'])))) := by
  have hbnn : NUL ∉ b0 ++ ['\n'] := by
    simp only [List.mem_append, List.mem_singleton, not_or]
    exact ⟨hbn, by decide⟩
  have hI : (4096 : Nat) ≤ INT_MAX := by decide
  have hlen : a.length + (b0.length + 1) ≤ 4096 := by
    simp only [List.length_append, List.length_cons, List.length_nil] at hfit
    omega
  -- the read of `a`
  have f1 : feed_all (s.clients fd).msg [a] = ([], some a, Status.running) := by
    rw [feed_all_eq_frame [a] _ (by simp [hp]) (by simp [hp])
      (by intro c hc; rw [List.mem_singleton.1 hc]; exact han)
      (by simp only [hp, List.nil_append, List.flatten_cons, List.flatten_nil,
            List.append_nil]; omega)]
    simp [hp, frame_no_newline a [] hal]
  obtain ⟨r1, r2, r3, r4, r5, r6, r7⟩ :=
    recv_step_data w1 s fd a ha0 hs1 ha1 (by simp [f1]) (by simp [f1])
  rw [f1] at r2 r3
  simp only [List.flatMap_nil] at r2
  -- the read of `b`
  have f2 : feed_all (some a) [b0 ++ ['\n']]
      = ([a ++ (b0 ++ ['\n'])], some [], Status.running) := by
    rw [feed_all_eq_frame [b0 ++ ['\n']] (some a) (by simpa using han) (by simpa using hal)
      (by intro c hc; rw [List.mem_singleton.1 hc]; exact hbnn)
      (by simp only [Option.getD_some, List.flatten_cons, List.flatten_nil,
            List.append_nil, List.length_append, List.length_cons, List.length_nil]; omega)]
    simp only [List.flatten_cons, List.flatten_nil, List.append_nil, Option.getD_some,
      frame_newline b0 [] a hbl]
    simp [frame]
  have hann : NUL ∉ a ++ (b0 ++ ['\n']) := by
    simp only [List.mem_append, List.mem_singleton, not_or]
    exact ⟨han, hbn, by decide⟩
  have hdef2 : (feed_all
      ((recv_step w1 s fd a.length a).state.clients fd).msg [b0 ++ ['\n']]).2.2
        = Status.running := by
    rw [r3, f2]
  have hfit2 : ∀ l ∈ (feed_all
      ((recv_step w1 s fd a.length a).state.clients fd).msg [b0 ++ ['\n']]).1,
      (chat_text ((recv_step w1 s fd a.length a).state.clients fd).id l).length + 1
        ≤ SEND_BUFFER_SIZE := by
    rw [r3, r4, f2]
    intro l hl
    rw [List.mem_singleton.1 hl, chat_text_line _ _ hann]
    exact hfit
  obtain ⟨q1, q2, _⟩ :=
    recv_step_data w2 (recv_step w1 s fd a.length a).state fd (b0 ++ ['\n']) (by simp)
      hs2 ha2 hdef2 hfit2
  rw [r3, r4, f2, active_except_congr _ s fd r5 r6 r7] at q2
  simp only [List.flatMap_cons, List.flatMap_nil, List.append_nil] at q2
  rw [chat_text_line _ _ hann] at q2
  exact ⟨r1, r2, q1, q2⟩

theorem pending_line_retention_witness :
    (two_clients.clients 4).msg.getD [] = [] ∧
    (step Oracle.ok two_clients (Event.recv 4 2 "ab".toList)).effects = [] ∧
    (step Oracle.ok (step Oracle.ok two_clients (Event.recv 4 2 "ab".toList)).state
        (Event.recv 4 3 "cd\n".toList)).effects
      = [Effect.stdout "client 0: abcd\n".toList,
         Effect.send 5 "client 0: abcd\n".toList] :=
  ⟨by decide, by decide,
   (pending_line_retention Oracle.ok Oracle.ok two_clients 4 "ab".toList "cd".toList
      (by decide) (by decide) (by decide) (by decide) (by decide) (by decide)
      (fun _ _ => rfl) (fun _ => rfl) (fun _ _ => rfl) (fun _ => rfl)
      (by decide)).2.2.2.trans (by decide)⟩


/-! ## The identity counter -/

theorem is_int_wrap_int (x : Int) : is_int (wrap_int x) := by
  simp only [is_int, wrap_int]
  omega

theorem wrap_int_of_is_int (x : Int) (h : is_int x) : wrap_int x = x := by
  simp only [is_int] at h
  simp only [wrap_int]
  omega

theorem wrap_int_succ (g : Int) (i : Nat) :
    wrap_int (wrap_int (g + 1) + i) = wrap_int (g + (i + 1 : Nat)) := by
  simp only [wrap_int]
  omega

theorem accept_step_gid (w : Oracle) (s : Server) (c : Int) (h0 : 0 ≤ c)
    (h1 : c < CLIENTS_SIZE) :
    (accept_step w s c).state.gid = wrap_int (s.gid + 1) ∧
    ((accept_step w s c).state.clients c.toNat).id = s.gid := by
  have h0' : ¬ c < 0 := by omega
  have h1' : ¬ CLIENTS_SIZE ≤ c := by omega
  simp only [accept_step, h0', h1', if_false]
  split <;> split <;> simp

theorem recv_step_gid (w : Oracle) (s : Server) (fd : Nat) (ret : Int) (data : List Char) :
    (recv_step w s fd ret data).state.gid = s.gid := by
  simp only [recv_step]
  split
  · split
    · rfl
    · rfl
    · rw [(message_loop_frame _ _ _ _ _).2.2.2.1]
  · split
    · rfl
    · split <;> rfl

theorem step_gid_of_not_admitted (w : Oracle) (s : Server) (e : Event)
    (h : admitted w s e = none) : (step w s e).state.gid = s.gid := by
  cases e with
  | accept c =>
    simp only [admitted, ite_eq_right_iff, reduceCtorEq, imp_false, not_and, not_lt] at h
    simp only [step, accept_step]
    split
    · rfl
    · rename_i h0
      have : CLIENTS_SIZE ≤ c := h (by omega)
      simp [this]
  | recv fd ret data => exact recv_step_gid w s fd ret data

theorem step_gid_of_admitted (w : Oracle) (s : Server) (e : Event) (id : Int)
    (h : admitted w s e = some id) :
    id = s.gid ∧ (step w s e).state.gid = wrap_int (s.gid + 1) := by
  cases e with
  | accept c =>
    simp only [admitted] at h
    split at h
    · rename_i hc
      obtain ⟨g1, g2⟩ := accept_step_gid w s c hc.1 hc.2
      simp only [Option.some.injEq] at h
      exact ⟨by rw [← h, g2], g1⟩
    · simp at h
  | recv fd ret data => simp [admitted] at h

/-- The identity of the admission number `i` of a run is the counter at the start of the
run advanced `i` times. -/
theorem admissions_get (s : Server) (evs : List (Oracle × Event)) (i : Nat) (id : Int)
    (hg : is_int s.gid) (h : (admissions s evs)[i]? = some id) :
    id = wrap_int (s.gid + i) := by
  induction evs generalizing s i with
  | nil => simp [admissions] at h
  | cons we rest ih =>
    obtain ⟨w, e⟩ := we
    simp only [admissions] at h
    cases ha : admitted w s e with
    | none =>
      rw [ha] at h
      simp only [] at h
      have hgid := step_gid_of_not_admitted w s e ha
      split at h
      · have := ih (step w s e).state i (by rw [hgid]; exact hg) h
        rw [hgid] at this
        exact this
      · simp at h
    | some id0 =>
      rw [ha] at h
      simp only [] at h
      obtain ⟨e1, e2⟩ := step_gid_of_admitted w s e id0 ha
      cases i with
      | zero =>
        simp only [List.getElem?_cons_zero, Option.some.injEq] at h
        rw [← h, e1]
        simp [wrap_int_of_is_int _ hg]
      | succ j =>
        simp only [List.getElem?_cons_succ] at h
        split at h
        · have := ih (step w s e).state j (by rw [e2]; exact is_int_wrap_int _) h
          rw [e2, wrap_int_succ] at this
          exact this
        · simp at h

theorem churn_succ (n : Nat) :
    churn (n + 1)
      = (Oracle.ok, Event.accept 4) :: (Oracle.ok, Event.recv 4 0 []) :: churn n := by
  simp [churn, List.replicate_succ]

theorem admissions_churn_length (s : Server) (n : Nat) (hg : is_int s.gid) :
    (admissions s (churn n)).length = n := by
  induction n generalizing s with
  | zero => simp [churn, admissions]
  | succ n ih =>
    have e1 := accept_step_ok Oracle.ok s 4 (by decide) (by decide) hg (fun _ => rfl)
    have hid : is_int (((accept_step Oracle.ok s 4).state.clients 4).id) := by
      rw [e1]
      simpa using hg
    have e2 := recv_step_closed Oracle.ok (accept_step Oracle.ok s 4).state 4 0 []
      (by decide) hid (fun _ => rfl)
    have hg2 : is_int (recv_step Oracle.ok (accept_step Oracle.ok s 4).state 4 0 []).state.gid := by
      rw [recv_step_gid, (accept_step_gid Oracle.ok s 4 (by decide) (by decide)).1]
      exact is_int_wrap_int _
    have hs1 : (accept_step Oracle.ok s 4).status = Status.running := by rw [e1]
    have hs2 : (recv_step Oracle.ok (accept_step Oracle.ok s 4).state 4 0 []).status
        = Status.running := by rw [e2]
    have ha1 : admitted Oracle.ok s (Event.accept 4)
        = some ((accept_step Oracle.ok s 4).state.clients 4).id := by
      simp [admitted, CLIENTS_SIZE]
    have ha2 : admitted Oracle.ok (accept_step Oracle.ok s 4).state (Event.recv 4 0 [])
        = none := rfl
    rw [churn_succ]
    simp only [admissions, step, hs1, hs2, ha1, ha2, List.length_cons]
    rw [ih _ hg2]


theorem admissions_churn_get (s : Server) (n i : Nat) (hg : is_int s.gid) (hi : i < n) :
    (admissions s (churn n))[i]? = some (wrap_int (s.gid + i)) := by
  have hlen : i < (admissions s (churn n)).length := by
    rw [admissions_churn_length s n hg]
    exact hi
  have e : (admissions s (churn n))[i]? = some ((admissions s (churn n))[i]) :=
    List.getElem?_eq_getElem hlen
  rw [e, admissions_get s (churn n) i _ hg e]

/-- C6 (as stated, refuted): `gid` is a C `int`. When a client connects and disconnects
over and over, the admission number 2147483648 (counting from 0) receives the identity
-2147483648, below the one before it, and the admission number 4294967296 receives the
identity 0 that the very first admission had received. -/
theorem identity_wraps :
    (admissions (init 3) (churn (2 ^ 31 + 1)))[2 ^ 31]? = some (-2 ^ 31) ∧
    (admissions (init 3) (churn (2 ^ 31 + 1)))[2 ^ 31 - 1]? = some (2 ^ 31 - 1) ∧
    (admissions (init 3) (churn (2 ^ 32 + 1)))[2 ^ 32]? = some 0 ∧
    (admissions (init 3) (churn (2 ^ 32 + 1)))[0]? = some 0 := by
  have hg : is_int (init 3).gid := by decide
  refine ⟨?_, ?_, ?_, ?_⟩
  · rw [admissions_churn_get _ _ _ hg (by decide)]
    decide
  · rw [admissions_churn_get _ _ _ hg (by decide)]
    decide
  · rw [admissions_churn_get _ _ _ hg (by decide)]
    decide
  · rw [admissions_churn_get _ _ _ hg (by decide)]
    decide

/-- C6 (amended): in every run from the initial state, whatever the events (admissions,
reads, disconnects, handles given again), the admission number `k` (counting from 0)
receives the identity `k` as long as `k < 2^31`, so these identities increase strictly and
do not repeat; and `gid` is changed by an admission only, which advances it by one as a C
`int`. -/
theorem identity_monotone (serverfd : Int) (evs : List (Oracle × Event)) (k : Nat) (id : Int)
    (h : (admissions (init serverfd) evs)[k]? = some id) (hk : k < 2 ^ 31) :
    id = k ∧
    (∀ (j : Nat) (idj : Int), j < k →
      (admissions (init serverfd) evs)[j]? = some idj → idj < id) ∧
    (∀ (w : Oracle) (s : Server) (e : Event), admitted w s e = none →
      (step w s e).state.gid = s.gid) ∧
    (∀ (w : Oracle) (s : Server) (e : Event) (id0 : Int), admitted w s e = some id0 →
      id0 = s.gid ∧ (step w s e).state.gid = wrap_int (s.gid + 1)) := by
  have hg : is_int (init serverfd).gid := by
    simp only [init, is_int]
    omega
  have key : ∀ (j : Nat) (x : Int), j < 2 ^ 31 →
      (admissions (init serverfd) evs)[j]? = some x → x = j := by
    intro j x hj hx
    have := admissions_get _ evs j x hg hx
    rw [this]
    simp only [init, wrap_int]
    omega
  refine ⟨key k id hk h, ?_, step_gid_of_not_admitted, step_gid_of_admitted⟩
  intro j idj hjk hj
  rw [key k id hk h, key j idj (by omega) hj]
  exact_mod_cast hjk

theorem identity_monotone_witness :
    (admissions (init 3)
      [(Oracle.ok, Event.accept 4), (Oracle.ok, Event.accept 5),
       (Oracle.ok, Event.recv 5 0 []), (Oracle.ok, Event.accept 5)])[2]? = some 2 ∧
    (2 : Nat) < 2 ^ 31 ∧
    (2 : Int) = ((2 : Nat) : Int) :=
  ⟨by decide, by decide,
   (identity_monotone 3
      [(Oracle.ok, Event.accept 4), (Oracle.ok, Event.accept 5),
       (Oracle.ok, Event.recv 5 0 []), (Oracle.ok, Event.accept 5)] 2 2
      (by decide) (by decide)).1⟩


/-! ## The loops end before their fuel does

`drain` and `message_loop` are started with the length of the pending buffer plus one as
fuel. Every turn of the loop but the last removes a line, hence at least one byte, so the
fuel is never used up: more fuel changes nothing. -/

theorem strlen_after_line (l rest : List Char) (hn : NUL ∉ l) :
    strlen (cstr rest) + (l.length + 1) = strlen (l ++ '\n' :: rest) := by
  simp only [strlen, cstr_cstr, cstr_append_of_not_mem l _ hn, cstr_cons,
    if_neg newline_ne_NUL, List.length_append, List.length_cons]
  omega

theorem drain_fuel (alloc : Nat → Bool) (fuel k n : Nat) (buf : Option (List Char))
    (h : strlen (buf.getD []) < fuel) :
    drain alloc (fuel + n) k buf = drain alloc fuel k buf := by
  induction fuel generalizing k buf with
  | zero => omega
  | succ fuel ih =>
    have e : fuel + 1 + n = (fuel + n) + 1 := by omega
    rw [e]
    simp only [drain]
    rcases extract_message_line (alloc k) buf with
      hnone | ⟨e, he, hne, _, _⟩ | ⟨l, rest, hb, _, hn, _, hx⟩
    · simp [hnone]
    · obtain ⟨ret, b1, m⟩ := e
      simp only [] at hne
      simp [he, hne]
    · have hlen : strlen ((some (cstr rest)).getD []) < fuel := by
        have := strlen_after_line l rest hn
        rw [hb] at h
        simp only [Option.getD_some] at h ⊢
        omega
      simp only [hx, if_true]
      rw [ih (k + 1) (some (cstr rest)) hlen]

theorem message_loop_fuel (w : Oracle) (fd : Nat) (fuel k n : Nat) (s : Server)
    (h : strlen ((s.clients fd).msg.getD []) < fuel) :
    message_loop w fd (fuel + n) k s = message_loop w fd fuel k s := by
  induction fuel generalizing k s with
  | zero => omega
  | succ fuel ih =>
    have e : fuel + 1 + n = (fuel + n) + 1 := by omega
    rw [e]
    simp only [message_loop]
    rcases extract_message_line (w.alloc (k + 1)) (s.clients fd).msg with
      hnone | ⟨e, he, hne, _, _⟩ | ⟨l, rest, hb, _, hn, _, hx⟩
    · simp [hnone]
    · obtain ⟨ret, b1, m⟩ := e
      simp only [] at hne
      simp [he, hne]
    · have hlen : strlen ((some (cstr rest)).getD []) < fuel := by
        have := strlen_after_line l rest hn
        rw [hb] at h
        simp only [Option.getD_some] at h ⊢
        omega
      simp only [hx, if_true]
      split
      · rfl
      · rename_i text _
        rw [ih (k + 1)
          { s with
            clients := Function.update s.clients fd ⟨(s.clients fd).id, some (cstr rest)⟩
            send_buffer := text }
          (by simpa using hlen)]

/-! ## A failed send -/

theorem send_loop_first_failure (s : Server) (ok : Nat → Bool) (except : Int)
    (l pre post : List Nat) (f : Nat)
    (hsplit : l.filter (fun fd =>
        s.current fd && (fd : Int) != s.serverfd && (fd : Int) != except) = pre ++ f :: post)
    (hpre : ∀ x ∈ pre, ok x = true) (hf : ok f = false) :
    send_loop s ok except l
      = (pre.map (fun fd => Effect.send fd (cstr s.send_buffer)) ++ (err none).1,
         Status.exited 1) := by
  induction l generalizing pre with
  | nil => simp at hsplit
  | cons a rest ih =>
    by_cases hc : (s.current a && (a : Int) != s.serverfd && (a : Int) != except) = true
    · rw [List.filter_cons, if_pos hc] at hsplit
      cases pre with
      | nil =>
        simp only [List.nil_append, List.cons.injEq] at hsplit
        obtain ⟨rfl, _⟩ := hsplit
        rw [send_loop, if_pos hc, hf]
        rfl
      | cons p pre1 =>
        simp only [List.cons_append, List.cons.injEq] at hsplit
        obtain ⟨rfl, hrest⟩ := hsplit
        have hp : ok a = true := hpre a (by simp)
        have hpre1 : ∀ x ∈ pre1, ok x = true := fun x hx => hpre x (List.mem_cons_of_mem _ hx)
        rw [send_loop, if_pos hc, if_pos hp, ih pre1 hrest hpre1]
        rfl
    · rw [List.filter_cons, if_neg hc] at hsplit
      rw [send_loop, if_neg hc, ih pre hsplit hpre]

theorem active_except_eq_filter (s : Server) (except : Int) :
    active_except s except
      = (List.range (s.maxfd + 1).toNat).filter (fun fd =>
          s.current fd && (fd : Int) != s.serverfd && (fd : Int) != except) := by
  simp [active_except, connections, List.filter_filter, Bool.and_comm, Bool.and_assoc]

/-- C11 (as stated, refuted): three clients of handles 4, 5 and 6 are connected and a text
is broadcast with 5 excluded; the send to 4 fails. The connection 6, which is active and is
neither the listening handle nor the excluded one, receives nothing, and the process
exits with code 1. -/
theorem send_failure_aborts :
    three_clients.current 6 = true ∧ (6 : Int) ≠ three_clients.serverfd ∧
    received 6 (send_to_all three_clients (fun fd => fd != 4) 5).1 = [] ∧
    (send_to_all three_clients (fun fd => fd != 4) 5).2 = Status.exited 1 := by
  decide

/-- C11 (amended): when, in the scan order of `send_to_all(except)`, the sends to the
recipients `pre` succeed and the send to the next recipient `f` fails, the recipients of
`pre` have been sent the text, `f` and the recipients after it are sent nothing,
`"Fatal error\n"` is written on standard error and the process exits with code 1: the first
failed send stops the broadcast and the server. -/
theorem send_failure_is_fatal (s : Server) (ok : Nat → Bool) (except : Int)
    (pre post : List Nat) (f : Nat)
    (hsplit : active_except s except = pre ++ f :: post)
    (hpre : ∀ x ∈ pre, ok x = true) (hf : ok f = false) :
    send_to_all s ok except
      = (pre.map (fun fd => Effect.send fd (cstr s.send_buffer))
          ++ [Effect.stderr "Fatal error".toList, Effect.stderr "\n".toList],
         Status.exited 1) ∧
    stderr_output (send_to_all s ok except).1 = "Fatal error\n".toList ∧
    (∀ x ∈ pre, received x (send_to_all s ok except).1 = [cstr s.send_buffer]) ∧
    received f (send_to_all s ok except).1 = [] ∧
    (∀ x ∈ post, received x (send_to_all s ok except).1 = []) := by
  have e : send_to_all s ok except
      = (pre.map (fun fd => Effect.send fd (cstr s.send_buffer))
          ++ [Effect.stderr "Fatal error".toList, Effect.stderr "\n".toList],
         Status.exited 1) := by
    rw [send_to_all, send_loop_first_failure s ok except _ pre post f
      (by rw [← active_except_eq_filter]; exact hsplit) hpre hf]
    rfl
  have hnd : (pre ++ f :: post).Nodup := by
    rw [← hsplit]
    exact (active_except_sorted s except).nodup
  have hpre_nd : pre.Nodup := (List.nodup_append.1 hnd).1
  have hdis : ∀ x, x ∈ pre → x ∉ f :: post := fun x hx hy =>
    (List.nodup_append.1 hnd).2.2 hx hy
  have hrecv : ∀ x, received x (send_to_all s ok except).1
      = if x ∈ pre then [cstr s.send_buffer] else [] := by
    intro x
    rw [e]
    simp only [received_append, received_map_send x _ pre hpre_nd]
    simp [received]
  have hout : ∀ l : List Nat, stderr_output
      (l.map (fun fd => Effect.send fd (cstr s.send_buffer))
        ++ [Effect.stderr "Fatal error".toList, Effect.stderr "\n".toList])
      = "Fatal error\n".toList := by
    intro l
    induction l with
    | nil => rfl
    | cons a rest ih => simpa [stderr_output] using ih
  refine ⟨e, ?_, ?_, ?_, ?_⟩
  · rw [e]
    exact hout pre
  · intro x hx
    rw [hrecv, if_pos hx]
  · rw [hrecv, if_neg (fun h => hdis f h (by simp))]
  · intro x hx
    rw [hrecv, if_neg (fun h => hdis x h (List.mem_cons_of_mem _ hx))]

theorem send_failure_is_fatal_witness :
    active_except three_clients 5 = [4] ++ 6 :: [] ∧
    (send_to_all three_clients (fun fd => fd != 6) 5)
      = ([Effect.send 4 "server: client 2 just arrived\n".toList,
          Effect.stderr "Fatal error".toList, Effect.stderr "\n".toList],
         Status.exited 1) :=
  ⟨by decide,
   (send_failure_is_fatal three_clients (fun fd => fd != 6) 5 [4] [] 6 (by decide)
      (by decide) (by decide)).1.trans (by decide)⟩


/-! ## The scan of a wakeup -/

theorem accept_step_maxfd (w : Oracle) (s : Server) (c : Int) :
    s.maxfd ≤ (accept_step w s c).state.maxfd ∧
    (accept_step w s c).state.maxfd ≤ max s.maxfd (CLIENTS_SIZE - 1) := by
  simp only [accept_step, CLIENTS_SIZE]
  split
  · exact ⟨le_refl _, le_max_left _ _⟩
  · split
    · exact ⟨le_refl _, le_max_left _ _⟩
    · split <;> split <;> simp only [] <;> constructor <;> omega

theorem step_maxfd (w : Oracle) (s : Server) (e : Event) :
    s.maxfd ≤ (step w s e).state.maxfd ∧
    (step w s e).state.maxfd ≤ max s.maxfd (CLIENTS_SIZE - 1) := by
  cases e with
  | accept c => exact accept_step_maxfd w s c
  | recv fd ret data =>
    simp only [step, recv_step_maxfd]
    exact ⟨le_refl _, le_max_left _ _⟩

theorem scan_turns_step (w : Oracle) (s : Server) (e : Event) :
    scan_turns (step w s e).state ≤ scan_turns s := by
  have := (step_maxfd w s e).2
  simp only [scan_turns, CLIENTS_SIZE] at this ⊢
  omega

theorem scan_past_maxfd (k : Wakeup) (fuel fd : Nat) (s : Server) (h : s.maxfd < (fd : Int)) :
    scan k fuel fd s = ⟨s, [], Status.running⟩ := by
  cases fuel with
  | zero => rfl
  | succ fuel =>
    have : ¬ (fd : Int) ≤ s.maxfd := by omega
    simp only [scan, this, if_false]

/-- With `scan_turns` turns or more a scan ends by itself: more turns change nothing. -/
theorem scan_fuel (k : Wakeup) (fuel fd n : Nat) (s : Server)
    (h : scan_turns s ≤ fd + fuel) :
    scan k (fuel + n) fd s = scan k fuel fd s := by
  induction fuel generalizing fd s with
  | zero =>
    have hm : s.maxfd < (fd : Int) := by
      simp only [scan_turns, CLIENTS_SIZE] at h
      omega
    rw [scan_past_maxfd k _ fd s hm, scan_past_maxfd k _ fd s hm]
  | succ fuel ih =>
    have e : fuel + 1 + n = (fuel + n) + 1 := by omega
    rw [e]
    simp only [scan]
    split
    · split
      · have hs := scan_turns_step (k.oracle fd) s (ready_event k s fd)
        rw [ih (fd + 1) (step (k.oracle fd) s (ready_event k s fd)).state (by omega)]
      · rw [ih (fd + 1) s (by omega)]
    · rfl

/-- C12: when `accept` returns a negative value, the step changes nothing in the globals
(active set, `maxfd`, `gid`, identities and pending buffers), has no effect at all, leaves
the process running, and the scan of the wakeup goes on with the next handle. -/
theorem accept_failure_continues (k : Wakeup) (w : Oracle) (s : Server) (c : Int)
    (fd fuel : Nat) (hc : c < 0) (hready : k.read_set fd = true)
    (hfd : (fd : Int) = s.serverfd) (hk : k.clientfd = c)
    (hfuel : scan_turns s ≤ fd + fuel) :
    step w s (Event.accept c) = ⟨s, [], Status.running⟩ ∧
    ready_event k s fd = Event.accept c ∧
    scan k fuel fd s = scan k fuel (fd + 1) s := by
  have hstep : ∀ w0 : Oracle, step w0 s (Event.accept c) = ⟨s, [], Status.running⟩ := by
    intro w0
    simp only [step, accept_step, hc, if_true]
  have hev : ready_event k s fd = Event.accept c := by
    simp only [ready_event, hfd, if_true, hk]
  refine ⟨hstep w, hev, ?_⟩
  by_cases hm : (fd : Int) ≤ s.maxfd
  · cases fuel with
    | zero =>
      simp only [scan_turns, CLIENTS_SIZE] at hfuel
      omega
    | succ fuel =>
      rw [scan_fuel k fuel (fd + 1) 1 s (by omega)]
      simp only [scan, hm, if_true, hready, hev, hstep]
      rfl
  · rw [scan_past_maxfd k fuel fd s (by omega), scan_past_maxfd k fuel (fd + 1) s (by omega)]

theorem accept_failure_continues_witness :
    (-1 : Int) < 0 ∧ failed_accept_wakeup.read_set 3 = true ∧
    ((3 : Nat) : Int) = two_clients.serverfd ∧
    scan_turns two_clients ≤ 3 + scan_turns two_clients ∧
    scan failed_accept_wakeup (scan_turns two_clients) 3 two_clients
      = scan failed_accept_wakeup (scan_turns two_clients) 4 two_clients ∧
    (wakeup failed_accept_wakeup two_clients).effects
      = [Effect.stdout "client 0: hi\n".toList, Effect.send 5 "client 0: hi\n".toList] :=
  ⟨by decide, by decide, by decide, by decide,
   (accept_failure_continues failed_accept_wakeup Oracle.ok two_clients (-1) 3
      (scan_turns two_clients) (by decide) (by decide) (by decide) rfl (by decide)).2.2,
   by decide⟩


/-! ## The argument check and `err` -/

/-- C13: when `ac` is not 2, `main` writes exactly `"Wrong number of arguments\n"` on
standard error and exits with code 1 without any call to `socket`, `bind` or `listen`;
`err(msg)` writes the string `msg` then a newline, or `"Fatal error\n"` when `msg` is
`NULL`, and exits with code 1. -/
theorem wrong_argument_count (ac : Int) (port : List Char)
    (socket_ret bind_ret listen_ret : Int) (hac : ac ≠ 2) :
    (main_start ac port socket_ret bind_ret listen_ret).calls = [] ∧
    (main_start ac port socket_ret bind_ret listen_ret).effects
      = [Effect.stderr "Wrong number of arguments".toList, Effect.stderr "\n".toList] ∧
    stderr_output (main_start ac port socket_ret bind_ret listen_ret).effects
      = "Wrong number of arguments\n".toList ∧
    (main_start ac port socket_ret bind_ret listen_ret).status = Status.exited 1 ∧
    (∀ msg : List Char,
      stderr_output (err (some msg)).1 = cstr msg ++ "\n".toList ∧
      (err (some msg)).2 = Status.exited 1) ∧
    stderr_output (err none).1 = "Fatal error\n".toList ∧
    (err none).2 = Status.exited 1 := by
  have h1 : (main_start ac port socket_ret bind_ret listen_ret)
      = ⟨[], (err (some "Wrong number of arguments".toList)).1,
          (err (some "Wrong number of arguments".toList)).2, boot⟩ := by
    simp only [main_start, hac, ne_eq, not_false_eq_true, if_true]
  rw [h1]
  refine ⟨rfl, by decide, by decide, rfl, ?_, by decide, rfl⟩
  intro msg
  exact ⟨by simp [err, stderr_output], rfl⟩

theorem wrong_argument_count_witness :
    (1 : Int) ≠ 2 ∧ (3 : Int) ≠ 2 ∧
    stderr_output (main_start 1 [] 3 0 0).effects = "Wrong number of arguments\n".toList ∧
    (main_start 3 "8080".toList 3 0 0).calls = [] ∧
    (main_start 2 "8080".toList 3 0 0).calls = [Call.socket, Call.bind, Call.listen] :=
  ⟨by decide, by decide,
   (wrong_argument_count 1 [] 3 0 0 (by decide)).2.2.1,
   (wrong_argument_count 3 "8080".toList 3 0 0 (by decide)).1,
   by decide⟩


/-! ## Allocation failures -/

/-- When `malloc` fails in `str_join` (the length of the pending buffer fitting the `int`
that holds it), the read ends in `err(NULL)`: `"Fatal error\n"` on standard error and exit
code 1, the globals untouched. -/
theorem malloc_failure_is_fatal (w : Oracle) (s : Server) (fd : Nat) (ret : Int)
    (data : List Char) (hret : ret > 0) (ha : w.alloc 0 = false)
    (hlen : strlen ((s.clients fd).msg.getD []) ≤ INT_MAX) :
    (step w s (Event.recv fd ret data)).status = Status.exited 1 ∧
    (step w s (Event.recv fd ret data)).effects
      = [Effect.stderr "Fatal error".toList, Effect.stderr "\n".toList] ∧
    stderr_output (step w s (Event.recv fd ret data)).effects = "Fatal error\n".toList := by
  have e : step w s (Event.recv fd ret data) = ⟨s, (err none).1, (err none).2⟩ := by
    cases hm : (s.clients fd).msg with
    | none => simp [step, recv_step, hret, ha, str_join, hm]
    | some b =>
      rw [hm] at hlen
      simp only [Option.getD_some] at hlen
      simp [step, recv_step, hret, ha, str_join, hm, hlen]
  have hout : stderr_output (err none).1 = "Fatal error\n".toList := by decide
  rw [e]
  exact ⟨rfl, rfl, hout⟩

theorem malloc_failure_is_fatal_witness :
    (2 : Int) > 0 ∧ malloc_fails.alloc 0 = false ∧
    strlen ((two_clients.clients 4).msg.getD []) ≤ INT_MAX ∧
    (step malloc_fails two_clients (Event.recv 4 2 "a\n".toList)).status = Status.exited 1 :=
  ⟨by decide, by decide, by decide,
   (malloc_failure_is_fatal malloc_fails two_clients 4 2 "a\n".toList (by decide)
      (by decide) (by decide)).1⟩

/-- C15 (the code at the failing input): client 0 sends `"a\n"`; `malloc` succeeds in
`str_join` and `calloc` fails in `extract_message`, which returns -1. The loop of `main`
only tests for 1: the process keeps running, writes nothing on standard error and relays
nothing. -/
theorem calloc_failure_not_fatal :
    extract_message false (some "a\n".toList) = some ⟨-1, some "a\n".toList, none⟩ ∧
    (step calloc_fails two_clients (Event.recv 4 2 "a\n".toList)).status = Status.running ∧
    (step calloc_fails two_clients (Event.recv 4 2 "a\n".toList)).effects = [] ∧
    stderr_output (step calloc_fails two_clients (Event.recv 4 2 "a\n".toList)).effects
      = [] := by
  decide

/-- C14 (the code at the failing input): client 0 sends `"a\n"` and `calloc` fails in
`extract_message`. The read is over, the process runs on, and the pending buffer of the
connection still holds the complete line `"a\n"`; the line is relayed only by the next
read whose allocations succeed, here together with `"b\n"`. -/
theorem pending_buffer_not_drained :
    (step calloc_fails two_clients (Event.recv 4 2 "a\n".toList)).status = Status.running ∧
    ((step calloc_fails two_clients (Event.recv 4 2 "a\n".toList)).state.clients 4).msg
      = some "a\n".toList ∧
    '\n' ∈ cstr "a\n".toList ∧
    received 5
      (run two_clients
        [(calloc_fails, Event.recv 4 2 "a\n".toList),
         (Oracle.ok, Event.recv 4 2 "b\n".toList)]).effects
      = ["client 0: a\n".toList, "client 0: b\n".toList] := by
  decide

/-- With enough fuel and every allocation succeeding, the extraction loop, when it ends
without `int` overflow, stops on a buffer without newline. -/
theorem drain_drained (fuel k : Nat) (buf : Option (List Char))
    (h : strlen (buf.getD []) < fuel)
    (hdef : (drain alloc_ok fuel k buf).2.2 = Status.running) :
    '\n' ∉ cstr ((drain alloc_ok fuel k buf).2.1.getD []) := by
  induction fuel generalizing k buf with
  | zero => omega
  | succ fuel ih =>
    simp only [drain, alloc_ok] at hdef ⊢
    rcases extract_message_line true buf with
      hnone | ⟨e, he, hne, hbuf, hnl⟩ | ⟨l, rest, hb, _, hn, _, hx⟩
    · simp [hnone] at hdef
    · obtain ⟨ret, b1, m⟩ := e
      simp only [] at hne hbuf
      simp only [he, hne, if_false, hbuf]
      exact hnl rfl
    · have hlen : strlen ((some (cstr rest)).getD []) < fuel := by
        have := strlen_after_line l rest hn
        rw [hb] at h
        simp only [Option.getD_some] at h ⊢
        omega
      simp only [hx, if_true] at hdef ⊢
      exact ih (k + 1) (some (cstr rest)) hlen hdef

/-- The invariant of C14 when nothing fails: after a read of at least one byte whose
allocations and sends succeed, whose lengths and indices fit an `int` and whose formatted
texts fit in `send_buffer`, the process runs on and the pending buffer of the connection
has no newline. -/
theorem pending_drained_when_nothing_fails (w : Oracle) (s : Server) (fd : Nat)
    (data : List Char) (hdata : data ≠ [])
    (hs : ∀ j x, w.sendOk j x = true) (ha : ∀ j, w.alloc j = true)
    (hdef : (feed_all (s.clients fd).msg [data]).2.2 = Status.running)
    (hfit : ∀ l ∈ (feed_all (s.clients fd).msg [data]).1,
      (chat_text (s.clients fd).id l).length + 1 ≤ SEND_BUFFER_SIZE) :
    (step w s (Event.recv fd data.length data)).status = Status.running ∧
    '\n' ∉ cstr
      (((step w s (Event.recv fd data.length data)).state.clients fd).msg.getD []) := by
  obtain ⟨h1, _, h3, _⟩ := recv_step_data w s fd data hdata hs ha hdef hfit
  refine ⟨h1, ?_⟩
  simp only [step]
  rw [h3]
  rw [feed_all_single] at hdef ⊢
  simp only [feed] at hdef ⊢
  cases hj : str_join (alloc_ok 0) (s.clients fd).msg (recv_buffer_of data) with
  | fatal =>
    rw [hj] at hdef
    simp at hdef
  | undefined =>
    rw [hj] at hdef
    simp at hdef
  | ok joined =>
    rw [hj] at hdef
    simp only [] at hdef ⊢
    exact drain_drained _ _ _ (by simp) hdef

theorem pending_drained_when_nothing_fails_witness :
    "ab\ncd".toList ≠ [] ∧
    ((step Oracle.ok two_clients (Event.recv 4 5 "ab\ncd".toList)).state.clients 4).msg
      = some "cd".toList ∧
    '\n' ∉ cstr
      (((step Oracle.ok two_clients
        (Event.recv 4 ("ab\ncd".toList.length : Nat) "ab\ncd".toList)).state.clients 4).msg.getD
          []) :=
  ⟨by decide, by decide,
   (pending_drained_when_nothing_fails Oracle.ok two_clients 4 "ab\ncd".toList (by decide)
      (fun _ _ => rfl) (fun _ => rfl) (by decide) (by decide)).2⟩


/-! ## `cleanup` -/

theorem cleanup_loop_eq (s : Server) (l : List Nat) :
    cleanup_loop s l
      = (((l.filter (fun fd => s.current fd && (fd : Int) != s.serverfd)).filter
            (fun fd => (s.clients fd).msg.isSome)),
         (l.filter (fun fd => s.current fd && (fd : Int) != s.serverfd)).map
            (fun fd => Effect.close fd)) := by
  induction l with
  | nil => rfl
  | cons a rest ih =>
    by_cases hc : (s.current a && (a : Int) != s.serverfd) = true
    · rw [cleanup_loop, if_pos hc, ih, List.filter_cons, if_pos hc]
      by_cases hm : (s.clients a).msg.isSome = true
      · simp [hm]
      · simp [hm]
    · rw [cleanup_loop, if_neg hc, ih, List.filter_cons, if_neg hc]

theorem cleanup_eq (s : Server) :
    cleanup s
      = ((connections s).filter (fun fd => (s.clients fd).msg.isSome),
         (connections s).map (fun fd => Effect.close fd)
           ++ if s.serverfd > 0 then [Effect.close s.serverfd] else []) := by
  simp only [cleanup, cleanup_loop_eq, connections]

/-- C16 (as stated, refuted): the server was started with standard input closed, so that
`socket` returned 0; one client, of handle 3, is connected. On an interrupt the client is
closed, but the listening handle 0, which is in the active set, is not: `cleanup` closes
`serverfd` only when it is positive. And an interrupt that arrives in the middle of an
admission, between `FD_SET` and the update of `maxfd`, leaves the new handle 6 open:
`cleanup` scans `0..maxfd`. -/
theorem listening_handle_zero_left_open :
    listening_on_zero.serverfd = 0 ∧ listening_on_zero.current 0 = true ∧
    (sigint_handler listening_on_zero).2.1 = [Effect.close 3] ∧
    Effect.close 0 ∉ (sigint_handler listening_on_zero).2.1 ∧
    (sigint_handler listening_on_zero).2.2 = Status.exited 0 ∧
    mid_admission.current 6 = true ∧ (6 : Int) ≠ mid_admission.serverfd ∧
    (sigint_handler mid_admission).2.1
      = [Effect.close 4, Effect.close 5, Effect.close 3] := by
  decide

/-- C16 (amended): in every state whose active handles are at most `maxfd` (every state
between two steps, and the state before the socket is created), the interrupt handler
sends nothing, closes each handle of the active set other than `serverfd`, in handle
order, after freeing its pending buffer when it is not `NULL`, then closes `serverfd`
when it is positive (not when it is 0), and exits with status 0. -/
theorem abrupt_shutdown (s : Server) (hmax : high_water s) :
    (sigint_handler s).2.2 = Status.exited 0 ∧
    (sigint_handler s).2.1
      = (connections s).map (fun fd => Effect.close fd)
          ++ (if s.serverfd > 0 then [Effect.close s.serverfd] else []) ∧
    (sigint_handler s).1 = (connections s).filter (fun fd => (s.clients fd).msg.isSome) ∧
    (∀ fd, fd ∈ connections s ↔ s.current fd = true ∧ (fd : Int) ≠ s.serverfd) ∧
    (connections s).Sorted (· < ·) ∧
    (∀ x t, Effect.send x t ∉ (sigint_handler s).2.1) := by
  have hconn : ∀ fd, fd ∈ connections s ↔ s.current fd = true ∧ (fd : Int) ≠ s.serverfd := by
    intro fd
    rw [mem_connections]
    exact ⟨fun h => h.2, fun h => ⟨hmax fd h.1, h⟩⟩
  simp only [sigint_handler, cleanup_eq]
  refine ⟨trivial, trivial, trivial, hconn, connections_sorted s, ?_⟩
  intro x t h
  simp only [List.mem_append, List.mem_map, reduceCtorEq, and_false, exists_false,
    false_or] at h
  split at h <;> simp at h

theorem abrupt_shutdown_witness :
    high_water two_clients ∧ high_water boot ∧
    (sigint_handler two_clients).2.1
      = [Effect.close 4, Effect.close 5, Effect.close 3] ∧
    (sigint_handler boot).2.1 = [] ∧
    (sigint_handler boot).2.2 = Status.exited 0 :=
  ⟨run_high_water _ _ (init_high_water 3),
   (fun x hx => absurd hx (by simp [boot])),
   (abrupt_shutdown two_clients (run_high_water _ _ (init_high_water 3))).2.1.trans
     (by decide),
   by decide,
   (abrupt_shutdown boot (fun x hx => absurd hx (by simp [boot]))).1⟩

/-! ## The high-water mark over runs and wakeups -/

theorem run_maxfd (s : Server) (evs : List (Oracle × Event)) :
    s.maxfd ≤ (run s evs).state.maxfd := by
  induction evs generalizing s with
  | nil => exact le_refl _
  | cons we rest ih =>
    obtain ⟨w, e⟩ := we
    have h1 := (step_maxfd w s e).1
    simp only [run]
    split
    · exact le_trans h1 (ih _)
    · exact h1

/-- A scan is a run: the readable handles it meets, in handle order. -/
theorem scan_eq_run (k : Wakeup) (fuel fd : Nat) (s : Server) :
    ∃ evs, scan k fuel fd s = run s evs := by
  induction fuel generalizing fd s with
  | zero => exact ⟨[], rfl⟩
  | succ fuel ih =>
    simp only [scan]
    split
    · split
      · obtain ⟨evs, he⟩ := ih (fd + 1) (step (k.oracle fd) s (ready_event k s fd)).state
        refine ⟨(k.oracle fd, ready_event k s fd) :: evs, ?_⟩
        simp only [run, he]
      · exact ih (fd + 1) s
    · exact ⟨[], rfl⟩

/-- C17: in every state reached from the initial state by any sequence of steps, and by
any wakeup from such a state, every handle of the active set is at most `maxfd`, so that
the range `0..maxfd` scanned by `send_to_all`, `cleanup` and the loop holds every active
handle; and no step, run or wakeup lowers `maxfd`. -/
theorem high_water_invariant (serverfd : Int) (evs : List (Oracle × Event)) (k : Wakeup) :
    high_water (run (init serverfd) evs).state ∧
    (∀ x, (run (init serverfd) evs).state.current x = true →
      x ∈ List.range ((run (init serverfd) evs).state.maxfd + 1).toNat) ∧
    (∀ x, x ∈ connections (run (init serverfd) evs).state ↔
      (run (init serverfd) evs).state.current x = true ∧
      (x : Int) ≠ (run (init serverfd) evs).state.serverfd) ∧
    high_water (wakeup k (run (init serverfd) evs).state).state ∧
    (∀ (w : Oracle) (s : Server) (e : Event), s.maxfd ≤ (step w s e).state.maxfd) ∧
    (∀ (s : Server) (l : List (Oracle × Event)), s.maxfd ≤ (run s l).state.maxfd) ∧
    (∀ (s : Server), s.maxfd ≤ (wakeup k s).state.maxfd) := by
  have h := run_high_water (init serverfd) evs (init_high_water serverfd)
  refine ⟨h, ?_, ?_, ?_, fun w s e => (step_maxfd w s e).1, run_maxfd, ?_⟩
  · intro x hx
    have := h x hx
    simp only [List.mem_range]
    omega
  · intro x
    rw [mem_connections]
    exact ⟨fun hx => hx.2, fun hx => ⟨h x hx.1, hx⟩⟩
  · obtain ⟨l, hl⟩ := scan_eq_run k (scan_turns (run (init serverfd) evs).state) 0
      (run (init serverfd) evs).state
    simp only [wakeup, hl]
    exact run_high_water _ l h
  · intro s
    obtain ⟨l, hl⟩ := scan_eq_run k (scan_turns s) 0 s
    simp only [wakeup, hl]
    exact run_maxfd s l


/-! ## Byte conservation -/

theorem long_line_text_length (n : Nat) :
    (chat_text (two_clients.clients 4).id (List.replicate n 'a' ++ ['\n'])).length + 1
      = n + 12 := by
  have hid : (two_clients.clients 4).id = 0 := by decide
  have hn : NUL ∉ List.replicate n 'a' ++ ['\n'] := by
    simp only [List.mem_append, List.mem_replicate, List.mem_singleton, not_or, not_and]
    exact ⟨fun _ => by decide, by decide⟩
  have hd : fmt_int 0 = ['0'] := by decide
  rw [chat_text_line _ _ hn, hid, hd]
  simp only [List.length_append, List.length_replicate, List.length_cons, List.length_nil,
    String.toList]
  have h1 : "client ".data.length = 7 := by decide
  have h2 : ": ".data.length = 2 := by decide
  omega

/-- C19 (the code at the failing input): in the state reached once two clients are
connected, client 0 sends a line of 4095 bytes in one read. The framer emits the line;
`"client 0: "`, the line and the terminating zero byte are 4106 bytes, more than the 4096
of `send_buffer`, so the `sprintf` of the loop writes past the end of the array. -/
theorem send_buffer_overrun :
    two_clients = (run (init 3) [(Oracle.ok, Event.accept 4), (Oracle.ok, Event.accept 5)]).state ∧
    (feed_all (two_clients.clients 4).msg [List.replicate 4094 'a' ++ ['\n']]).1
      = [List.replicate 4094 'a' ++ ['\n']] ∧
    (chat_text (two_clients.clients 4).id (List.replicate 4094 'a' ++ ['\n'])).length + 1
      = 4106 ∧
    SEND_BUFFER_SIZE = 4096 ∧
    sprintf (chat_text (two_clients.clients 4).id (List.replicate 4094 'a' ++ ['\n']))
      = none := by
  have hlen := long_line_text_length 4094
  refine ⟨rfl, (long_line_overflow 4094 (by decide) (by decide)).1, hlen, rfl, ?_⟩
  simp only [sprintf, hlen, SEND_BUFFER_SIZE]
  decide

/-- The bound of C19 for lines short enough: when the line emitted for a connection whose
identity is a C `int` has at most 4075 bytes, the formatted text and its zero byte fit in
`send_buffer`. -/
theorem chat_text_fits (id : Int) (l : List Char) (hid : is_int id)
    (hl : l.length ≤ 4075) :
    sprintf (chat_text id l) = some (chat_text id l) := by
  have h1 := fmt_int_length id hid
  have h2 : (cstr l).length ≤ l.length := by
    simp only [cstr]
    exact (List.takeWhile_sublist _).length_le
  simp only [sprintf, chat_text, SEND_BUFFER_SIZE, List.length_append]
  simp
  omega

theorem chat_text_fits_witness :
    is_int 0 ∧ "hello\n".toList.length ≤ 4075 ∧
    sprintf (chat_text 0 "hello\n".toList) = some "client 0: hello\n".toList :=
  ⟨by decide, by decide,
   (chat_text_fits 0 "hello\n".toList (by decide) (by decide)).trans (by decide)⟩

end MiniServ
